import Mathlib

/-!
# GitHub Profile Explorer: view-model derivation layer of `js/script.js`

A shallow embedding of the data-shaping code of `js/script.js` (ranking, language
histogram, growth series, formatters, event descriptions, profile summary) together
with the JavaScript built-ins that code relies on, followed by theorems about it.

Conventions of the embedding.

* A JSON field that may be missing or `null` is an `Option`; `none` stands for both
  `undefined` and `null` (the code never distinguishes them).
* JavaScript truthiness is made explicit: a string is truthy when non-empty, a number
  when non-zero, an array always.
* Numbers occurring in records are integers; arithmetic on them is exact (`Int`/`Nat`).
  The only floating-point operations of the code, the two divisions in `formatNumber`,
  are modelled exactly as IEEE-754 binary64 round-to-nearest-even on rationals.
* Code that can throw returns `Except JsError _`; `try`/`catch` is an explicit match.
-/

namespace GitHubProfile

/-! ## JavaScript built-ins used by the code -/

/-- Truthiness of a string-valued JSON field: missing, `null` and `""` are falsy. -/
def truthyStr : Option String → Bool
  | some s => s != ""
  | none => false

/-- The expression `x || 0` for an integer-valued JSON field. -/
def orZero : Option Int → Int
  | some n => n
  | none => 0

/-- The expression `x || d` for a string-valued JSON field and a string default. -/
def orStr (x : Option String) (d : String) : String :=
  match x with
  | some s => if s != "" then s else d
  | none => d

/-- Insertion of `x` into a list ordered by the comparator `cmp`, in front of the first
element `y` with `cmp x y ≤ 0`. -/
def sortInsert {α : Type} (cmp : α → α → Int) (x : α) : List α → List α
  | [] => [x]
  | y :: ys => if cmp x y ≤ 0 then x :: y :: ys else y :: sortInsert cmp x ys

/-- The method `Array.prototype.sort(cmp)`: a stable sort (ECMAScript 2019 and later), where
a comparator result `≤ 0` keeps the first argument in front.  For a consistent comparator
the result is determined by stability, so any stable algorithm models it; this one
inserts the elements from the right. -/
def arraySort {α : Type} (cmp : α → α → Int) : List α → List α
  | [] => []
  | x :: xs => sortInsert cmp x (arraySort cmp xs)

/-- The method `Array.prototype.slice(0, n)`. -/
def slice0 {α : Type} (n : Nat) (xs : List α) : List α := xs.take n

/-! ## Configuration and records -/

/-- The constant `CONFIG.MAX_DISPLAYED_REPOS`. -/
def CONFIG.MAX_DISPLAYED_REPOS : Nat := 12

/-- A repository record of the API response, restricted to the fields the code reads. -/
structure Repo where
  name : Option String
  description : Option String
  stargazers_count : Option Int
  forks_count : Option Int
  language : Option String
  created_at : Option String
  updated_at : Option String
  html_url : Option String
deriving DecidableEq, Repr

/-- The star count used for ranking, `repo.stargazers_count || 0`. -/
def Repo.stars (r : Repo) : Int := orZero r.stargazers_count

/-! ## `displayTopRepos` -/

/-- The comparator `(a, b) => (b.stargazers_count || 0) - (a.stargazers_count || 0)`. -/
def byStarsDesc (a b : Repo) : Int := b.stars - a.stars

/-- What `displayTopRepos` puts into the `reposGrid` container: the placeholder card, or
one card per ranked repository, in order. -/
inductive ReposGrid where
  | noRepositories : ReposGrid
  | cards (topRepos : List Repo) : ReposGrid
deriving DecidableEq, Repr

/-- The function `displayTopRepos(repos)`. -/
def displayTopRepos (repos : List Repo) : ReposGrid :=
  if repos.length = 0 then ReposGrid.noRepositories
  else ReposGrid.cards (slice0 CONFIG.MAX_DISPLAYED_REPOS (arraySort byStarsDesc repos))

/-- The ranked list rendered by `displayTopRepos`: the repositories of the cards. -/
def ReposGrid.ranked : ReposGrid → List Repo
  | ReposGrid.noRepositories => []
  | ReposGrid.cards topRepos => topRepos

/-! ## Strings, numbers and ordinary objects -/

/-- The UTF-16 code units of a character. -/
def charCodeUnits (c : Char) : List Nat :=
  if c.toNat < 65536 then [c.toNat]
  else [55296 + (c.toNat - 65536) / 1024, 56320 + (c.toNat - 65536) % 1024]

/-- The UTF-16 code units of a list of characters. -/
def listCodeUnits : List Char → List Nat
  | [] => []
  | c :: cs => charCodeUnits c ++ listCodeUnits cs

/-- The UTF-16 code units of a string, the sequence JavaScript compares strings by. -/
def codeUnits (s : String) : List Nat := listCodeUnits s.data

/-- Lexicographic `<` on code-unit sequences: the string comparison `x < y`. -/
def lexLt : List Nat → List Nat → Bool
  | _, [] => false
  | [], _ :: _ => true
  | a :: as, b :: bs => if a < b then true else if b < a then false else lexLt as bs

/-- The comparison used by `Array.prototype.sort()` without a comparator, on strings. -/
def defaultCompare (x y : String) : Int :=
  if lexLt (codeUnits x) (codeUnits y) then -1
  else if lexLt (codeUnits y) (codeUnits x) then 1
  else 0

/-- The conversion `ToString` of a number that is an integer or `NaN` (`none`). -/
def numberToString : Option Int → String
  | some n => toString n
  | none => "NaN"

/-- The value of a non-empty sequence of decimal digits. -/
def digitsValue : List Char → Option Nat
  | [] => none
  | cs => cs.foldl
      (fun acc c => match acc with
        | some n => if c.isDigit then some (10 * n + (c.toNat - 48)) else none
        | none => none)
      (some 0)

/-- The array index denoted by a property key, if any: the key is the canonical decimal
numeral of an integer below `2 ^ 32 - 1`. -/
def arrayIndex? (k : String) : Option Nat :=
  match digitsValue k.data with
  | some n => if toString n = k ∧ n < 4294967295 then some n else none
  | none => none

/-- An ordinary object used as a table of counters: its own properties in creation
order.  Keys naming a property inherited from `Object.prototype` are not modelled, see
`inheritedNames`. -/
abbrev Table := List (String × Nat)

/-- The names of the properties every ordinary object inherits from `Object.prototype`.
Reading such a key from a fresh object yields the inherited value rather than
`undefined`; the tables below are faithful for all other keys. -/
def inheritedNames : List String :=
  ["constructor", "hasOwnProperty", "isPrototypeOf", "propertyIsEnumerable",
   "toLocaleString", "toString", "valueOf", "__proto__", "__defineGetter__",
   "__defineSetter__", "__lookupGetter__", "__lookupSetter__"]

/-- The property read `obj[k]`; `none` is `undefined`. -/
def Table.get (t : Table) (k : String) : Option Nat :=
  match t with
  | [] => none
  | (k', v) :: rest => if k' = k then some v else Table.get rest k

/-- The property write `obj[k] = v`: an existing property keeps its position, a new one is
created last. -/
def Table.set (t : Table) (k : String) (v : Nat) : Table :=
  match t with
  | [] => [(k, v)]
  | (k', v') :: rest => if k' = k then (k', v) :: rest else (k', v') :: Table.set rest k v

/-- The statement `obj[k] = (obj[k] || 0) + 1`. -/
def Table.increment (t : Table) (k : String) : Table :=
  t.set k ((t.get k).getD 0 + 1)

/-- The comparator ordering array-index keys by their numeric value. -/
def byIndex (a b : String) : Int :=
  ((arrayIndex? a).getD 0 : Int) - ((arrayIndex? b).getD 0 : Int)

/-- The function `Object.keys(obj)`: the array-index keys in ascending numeric order, then
the other keys in creation order. -/
def Object.keys (t : Table) : List String :=
  arraySort byIndex ((t.map Prod.fst).filter (fun k => (arrayIndex? k).isSome)) ++
    (t.map Prod.fst).filter (fun k => (arrayIndex? k).isNone)

/-- The function `Object.entries(obj)`: the properties in the order of `Object.keys`. -/
def Object.entries (t : Table) : List (String × Nat) :=
  (Object.keys t).map (fun k => (k, (t.get k).getD 0))

/-- The function `Object.assign(target, source)`. -/
def Object.assign (target source : Table) : Table :=
  (Object.entries source).foldl (fun t kv => t.set kv.1 kv.2) target

/-! ## `createLanguageChart` -/

/-- The object `languages` after the counting loop of `createLanguageChart`. -/
def countLanguages (repos : List Repo) : Table :=
  repos.foldl
    (fun languages repo =>
      if truthyStr repo.language then languages.increment (repo.language.getD "")
      else languages)
    []

/-- The object literal substituted when no language was counted. -/
def cannedLanguages : Table :=
  [("JavaScript", 8), ("Python", 5), ("TypeScript", 4), ("HTML", 3), ("CSS", 2), ("Java", 2)]

/-- The comparator `([, a], [, b]) => b - a` on entries. -/
def byCountDesc (x y : String × Nat) : Int := (y.2 : Int) - (x.2 : Int)

/-- The function `createLanguageChart(repos)`: the array `sortedLanguages` whose first and
second components are the labels and the data of the chart. -/
def createLanguageChart (repos : List Repo) : List (String × Nat) :=
  let languages := countLanguages repos
  let languages :=
    if (Object.keys languages).length = 0 then Object.assign languages cannedLanguages
    else languages
  slice0 8 (arraySort byCountDesc (Object.entries languages))

/-! ## `createGrowthChart` -/

/-- The object `reposByYear` after the counting loop of `createGrowthChart`.  The parameter
`getFullYear` stands for `s => new Date(s).getFullYear()`, which depends on the date
parser and the time zone of the browser; `none` is `NaN`. -/
def countReposByYear (getFullYear : String → Option Int) (repos : List Repo) : Table :=
  repos.foldl
    (fun reposByYear repo =>
      if truthyStr repo.created_at then
        reposByYear.increment (numberToString (getFullYear (repo.created_at.getD "")))
      else reposByYear)
    []

/-- The loop `years.forEach(year => { cumulative += reposByYear[year]; ... push ... })`,
started with the running total `cumulative`.  Every `year` is a key of `reposByYear`, so
the read never yields `undefined`. -/
def cumulate (reposByYear : Table) : List String → Nat → List Nat
  | [], _ => []
  | year :: years, cumulative =>
    (cumulative + (reposByYear.get year).getD 0) ::
      cumulate reposByYear years (cumulative + (reposByYear.get year).getD 0)

/-- The function `createGrowthChart(repos)`: the arrays `years` (labels) and
`cumulativeData` of the chart. -/
def createGrowthChart (getFullYear : String → Option Int) (repos : List Repo) :
    List String × List Nat :=
  let reposByYear := countReposByYear getFullYear repos
  let years := arraySort defaultCompare (Object.keys reposByYear)
  (years, cumulate reposByYear years 0)

/-! ## `formatNumber` -/

/-- Auxiliary loop of `bitLength`, with `fuel` bounding the number of halvings. -/
def bitLengthAux : Nat → Nat → Nat
  | 0, _ => 0
  | fuel + 1, n => if n = 0 then 0 else bitLengthAux fuel (n / 2) + 1

/-- The number of binary digits of `n`. -/
def bitLength (n : Nat) : Nat := bitLengthAux n n

/-- The integer nearest to `a / q`, ties going to the even integer. -/
def roundHalfEven (a q : Nat) : Nat :=
  if 2 * (a % q) < q then a / q
  else if q < 2 * (a % q) then a / q + 1
  else if (a / q) % 2 = 0 then a / q
  else a / q + 1

/-- The binary64 quotient `p / q` of two exactly represented integers with `p ≥ q > 0`:
the exact quotient rounded to 53 significant bits, ties to even, returned as the
fraction `(numerator, denominator)`.  The exponent of the quotient is
`bitLength (p / q) - 1`. -/
def float64Div (p q : Nat) : Nat × Nat :=
  if bitLength (p / q) - 1 ≤ 52 then
    (roundHalfEven (p * 2 ^ (52 - (bitLength (p / q) - 1))) q,
      2 ^ (52 - (bitLength (p / q) - 1)))
  else
    (roundHalfEven p (q * 2 ^ (bitLength (p / q) - 1 - 52)) *
      2 ^ (bitLength (p / q) - 1 - 52), 1)

/-- The digits `a.b` of the integer count of tenths `n`. -/
def tenths (n : Nat) : String := toString (n / 10) ++ "." ++ toString (n % 10)

/-- The method `x.toFixed(1)` for a binary64 value `1 ≤ x < 10 ^ 21` given as a fraction:
the integer `n` with `n / 10` nearest to the exact value of `x`, the larger one on a tie,
printed with one decimal. -/
def toFixed1 (x : Nat × Nat) : String := tenths ((20 * x.1 + x.2) / (2 * x.2))

/-- The function `formatNumber(num)` on the integers `|num| < 2 ^ 53`, all of which
binary64 represents exactly. -/
def formatNumber (num : Int) : String :=
  if num ≥ 1000000 then toFixed1 (float64Div num.toNat 1000000) ++ "M"
  else if num ≥ 1000 then toFixed1 (float64Div num.toNat 1000) ++ "K"
  else toString num

/-! ## `formatDate` -/

/-- Errors thrown by the modelled code. -/
inductive JsError where
  | typeError : JsError
deriving DecidableEq, Repr

/-- A `Date` object, given by its time value in milliseconds; `none` is the time value
`NaN` of an invalid date. -/
abbrev JsDate := Option Int

/-- The constructor call `new Date(s)` on a string; `parse` stands for `Date.parse`, whose
result outside the ISO format is left to the browser. -/
def newDate (parse : String → Option Int) (s : String) : JsDate := parse s

/-- The method `date.toLocaleDateString(locales, options)` of ECMA-402: an invalid date
yields the string "Invalid Date" without throwing, a valid one is formatted by the
locale data, here the parameter `enUS` standing for the `en-US` format with short month,
numeric day and numeric year in the local time zone. -/
def toLocaleDateString (enUS : Int → String) : JsDate → Except JsError String
  | none => Except.ok "Invalid Date"
  | some t => Except.ok (enUS t)

/-- The function `formatDate(date)` applied to a `Date` object. -/
def formatDate (enUS : Int → String) (date : JsDate) : String :=
  match toLocaleDateString enUS date with
  | Except.ok s => s
  | Except.error _ => "Unknown date"

/-! ## `getEventDescription` -/

/-- The method `s.replace(pattern, replacement)` with string arguments, on character
lists: the first occurrence of `pattern` is replaced. -/
def replaceFirst (pattern replacement : List Char) : List Char → List Char
  | [] => if pattern = [] then replacement else []
  | c :: cs =>
    if (c :: cs).take pattern.length = pattern then
      replacement ++ (c :: cs).drop pattern.length
    else c :: replaceFirst pattern replacement cs

/-- The method `s.replace(pattern, replacement)` for a replacement free of `$`. -/
def stringReplace (s pattern replacement : String) : String :=
  String.mk (replaceFirst pattern.data replacement.data s.data)

/-- The `type` field of an event: missing or `null`, a string, or another JSON value
(number, boolean, array or object). -/
inductive EventType where
  | absent : EventType
  | string (s : String) : EventType
  | other : EventType
deriving DecidableEq, Repr

/-- A commit entry of a push payload; the code reads none of its fields. -/
structure Commit where
  sha : Option String
deriving DecidableEq, Repr

/-- The `payload` of an event, restricted to the fields the code reads. -/
structure Payload where
  commits : Option (List Commit)
  ref_type : Option String
  action : Option String
deriving DecidableEq, Repr

/-- The name of the repository of an event. -/
structure EventRepo where
  name : Option String
deriving DecidableEq, Repr

/-- An event record of the API response. -/
structure Event where
  type : EventType
  created_at : Option String
  repo : Option EventRepo
  payload : Option Payload
deriving DecidableEq, Repr

/-- The expression `event.payload && event.payload.commits ? event.payload.commits.length : 1`. -/
def commitCount (payload : Option Payload) : Nat :=
  match payload with
  | some p =>
    match p.commits with
    | some cs => cs.length
    | none => 1
  | none => 1

/-- The expression `event.payload && event.payload.f ? event.payload.f : d` for a string
field `f` of the payload. -/
def payloadStr (payload : Option Payload) (f : Payload → Option String) (d : String) :
    String :=
  match payload with
  | some p => if truthyStr (f p) then (f p).getD "" else d
  | none => d

/-- The `switch` statement inside the `try` block of `getEventDescription`. -/
def describeEvent (event : Event) : Except JsError String :=
  match event.type with
  | EventType.string t =>
    if t = "PushEvent" then
      Except.ok ("Pushed " ++ toString (commitCount event.payload) ++ " commit(s)")
    else if t = "CreateEvent" then
      Except.ok ("Created " ++ payloadStr event.payload Payload.ref_type "repository")
    else if t = "WatchEvent" then Except.ok "Starred repository"
    else if t = "ForkEvent" then Except.ok "Forked repository"
    else if t = "IssuesEvent" then
      Except.ok (payloadStr event.payload Payload.action "Updated" ++ " issue")
    else if t = "PullRequestEvent" then
      Except.ok (payloadStr event.payload Payload.action "Updated" ++ " pull request")
    else if t = "ReleaseEvent" then Except.ok "Published release"
    else if t = "GollumEvent" then Except.ok "Updated wiki"
    else if t = "DeleteEvent" then Except.ok "Deleted branch or tag"
    else if t = "PublicEvent" then Except.ok "Made repository public"
    else Except.ok (stringReplace t "Event" "")
  | EventType.absent => Except.error JsError.typeError
  | EventType.other => Except.error JsError.typeError

/-- The function `getEventDescription(event)`: the `switch` wrapped in `try`/`catch`. -/
def getEventDescription (event : Event) : Except JsError String :=
  match describeEvent event with
  | Except.ok title => Except.ok title
  | Except.error _ => Except.ok "Repository activity"

/-- The ten event types with a `case` of their own. -/
def recognizedTypes : List String :=
  ["PushEvent", "CreateEvent", "WatchEvent", "ForkEvent", "IssuesEvent",
   "PullRequestEvent", "ReleaseEvent", "GollumEvent", "DeleteEvent", "PublicEvent"]

/-! ## `displayProfile` -/

/-- A profile record of the API response, restricted to the fields the code reads. -/
structure User where
  avatar_url : Option String
  name : Option String
  login : Option String
  bio : Option String
  public_repos : Option Int
  followers : Option Int
  following : Option Int
  public_gists : Option Int
deriving DecidableEq, Repr

/-- The contents `displayProfile` writes to the elements of the profile card. -/
structure ProfileView where
  profileImage : String
  profileName : String
  profileBio : String
  repoCount : String
  followerCount : String
  followingCount : String
  gistCount : String
deriving DecidableEq, Repr

/-- The function `displayProfile(user)` on a profile record. -/
def displayProfile (user : User) : ProfileView :=
  { profileImage := orStr user.avatar_url ""
    profileName := orStr user.name (orStr user.login "N/A")
    profileBio := orStr user.bio "No bio available"
    repoCount := formatNumber (orZero user.public_repos)
    followerCount := formatNumber (orZero user.followers)
    followingCount := formatNumber (orZero user.following)
    gistCount := formatNumber (orZero user.public_gists) }

/-! ## Reference notions used in the statements -/

/-- The key a repository contributes to `languages`: its language when truthy. -/
def Repo.languageKey (r : Repo) : Option String :=
  if truthyStr r.language then r.language else none

/-- The truthy languages of the repositories, in input order, with repetitions. -/
def languageKeys (repos : List Repo) : List String := repos.filterMap Repo.languageKey

/-- The year `new Date(repo.created_at).getFullYear()` of a repository with a truthy
creation date; the inner `none` is `NaN`. -/
def Repo.creationYear (getFullYear : String → Option Int) (r : Repo) : Option (Option Int) :=
  if truthyStr r.created_at then some (getFullYear (r.created_at.getD "")) else none

/-- The creation years of the repositories with a truthy creation date, in input order. -/
def creationYears (getFullYear : String → Option Int) (repos : List Repo) :
    List (Option Int) :=
  repos.filterMap (Repo.creationYear getFullYear)

/-- A table of counters filled by counting the keys of a list one after the other. -/
def tally (ks : List String) : Table := ks.foldl Table.increment []

/-- The position of the first repository declaring language `l`; the length of the input
when there is none. -/
def firstDeclared (repos : List Repo) (l : String) : Nat :=
  repos.findIdx (fun r => r.language = some l)

/-- The number of repositories declaring language `l`. -/
def declaring (repos : List Repo) (l : String) : Nat :=
  repos.countP (fun r => r.language = some l)

/-- No language of the input names a property inherited from `Object.prototype`: the
inputs on which `Table` models the object `languages`. -/
def ordinaryLanguages (repos : List Repo) : Prop :=
  ∀ k ∈ languageKeys repos, k ∉ inheritedNames

/-- No language of the input is an array-index numeral such as `"7"`. -/
def noIndexLanguages (repos : List Repo) : Prop :=
  ∀ k ∈ languageKeys repos, arrayIndex? k = none

/-- A repository that only declares a language. -/
def repoWithLanguage (language : Option String) : Repo :=
  { name := none, description := none, stargazers_count := none, forks_count := none,
    language := language, created_at := none, updated_at := none, html_url := none }

/-- A repository that only has a creation date. -/
def repoCreatedAt (created_at : Option String) : Repo :=
  { name := none, description := none, stargazers_count := none, forks_count := none,
    language := none, created_at := created_at, updated_at := none, html_url := none }

/-- The input `[{ language: "" }]`: one repository whose language is the empty string. -/
def emptyLanguageRepos : List Repo := [repoWithLanguage (some "")]

/-- The input `[{ language: "Go" }, { language: null }, { language: "Rust" },
{ language: "Go" }]`. -/
def sampleLanguageRepos : List Repo :=
  [repoWithLanguage (some "Go"), repoWithLanguage none, repoWithLanguage (some "Rust"),
   repoWithLanguage (some "Go")]

/-- The input `[{ language: "b" }, { language: "7" }]`. -/
def indexLanguageRepos : List Repo :=
  [repoWithLanguage (some "b"), repoWithLanguage (some "7")]

/-- The keys the repositories contribute to `reposByYear`, in input order. -/
def yearKeys (getFullYear : String → Option Int) (repos : List Repo) : List String :=
  (creationYears getFullYear repos).map numberToString

/-- The number of repositories with a truthy (non-null, non-empty) creation date. -/
def dated (repos : List Repo) : Nat := repos.countP (fun r => truthyStr r.created_at)

/-- A sample `getFullYear`: the year field of an ISO 8601 timestamp
`YYYY-MM-DDTHH:mm:ssZ`, read from its first four characters, and `NaN` when these are not
digits.  It is the local year in every time zone unless the date is 1 January or
31 December. -/
def isoYear (s : String) : Option Int := (digitsValue (s.data.take 4)).map Int.ofNat

/-- The input `[{ created_at: "" }, { created_at: "2020-06-15T12:00:00Z" }]`. -/
def emptyDateRepos : List Repo :=
  [repoCreatedAt (some ""), repoCreatedAt (some "2020-06-15T12:00:00Z")]

/-- The year denoted by a label made of decimal digits. -/
def labelYear (s : String) : Int := Int.ofNat ((digitsValue s.data).getD 0)

/-- The test `year ≤ n` on a creation year, false for `NaN`. -/
def yearLe (n : Int) : Option Int → Bool
  | some m => decide (m ≤ n)
  | none => false

/-- The test that a creation year lies below every year of the list `L`. -/
def yearBelow (L : List Int) : Option Int → Bool
  | some m => L.all (fun n => decide (m < n))
  | none => false

/-- The input `[{ created_at: "0999-06-15T12:00:00Z" }, { created_at:
"2020-06-15T12:00:00Z" }]`: one repository created in the year 999, one in 2020. -/
def earlyYearRepos : List Repo :=
  [repoCreatedAt (some "0999-06-15T12:00:00Z"), repoCreatedAt (some "2020-06-15T12:00:00Z")]

/-- The input with creation dates in 2023, 2022, none, 2023 and 2021. -/
def sampleDateRepos : List Repo :=
  [repoCreatedAt (some "2023-01-15T10:30:00Z"), repoCreatedAt (some "2022-08-22T14:20:00Z"),
   repoCreatedAt none, repoCreatedAt (some "2023-06-05T16:45:00Z"),
   repoCreatedAt (some "2021-11-18T12:30:00Z")]

/-- Every creation year of the input is a four-digit year, from 1000 to 9999. -/
def fourDigitYears (getFullYear : String → Option Int) (repos : List Repo) : Prop :=
  ∀ y ∈ creationYears getFullYear repos, ∃ n : Int, y = some n ∧ 1000 ≤ n ∧ n ≤ 9999

/-- Specification of the rounding: the exact quotient `n / q` rounded half-up to one
decimal place, as a number of tenths. -/
def halfUpTenths (n q : Nat) : Nat := (20 * n + q) / (2 * q)

/-- The test that `pattern` occurs in a character list, at some position. -/
def occursIn (pattern : List Char) : List Char → Bool
  | [] => decide (pattern = [])
  | c :: cs => decide ((c :: cs).take pattern.length = pattern) || occursIn pattern cs

/-- The test that the string `s` contains the substring "Event". -/
def containsEvent (s : String) : Bool := occursIn "Event".data s.data

/-- Specification of the fallback title: the type name with the suffix "Event" stripped,
and the type name itself when it does not end in "Event". -/
def stripEventSuffix (t : String) : String :=
  if t.data.drop (t.data.length - 5) = "Event".data then
    String.mk (t.data.take (t.data.length - 5))
  else t

/-- An event that only has a type. -/
def eventOfType (type : EventType) : Event :=
  { type := type, created_at := none, repo := none, payload := none }

/-- The fully empty profile record `{}`. -/
def emptyUser : User :=
  { avatar_url := none, name := none, login := none, bio := none, public_repos := none,
    followers := none, following := none, public_gists := none }

/-- The profile record `{ name: "", login: "octocat" }`. -/
def emptyNameUser : User :=
  { avatar_url := none, name := some "", login := some "octocat", bio := none,
    public_repos := none, followers := none, following := none, public_gists := none }

/-- A sample profile record with every field present. -/
def sampleUser : User :=
  { avatar_url := some "https://avatars.githubusercontent.com/u/583231",
    name := some "The Octocat", login := some "octocat", bio := some "Mascot",
    public_repos := some 8, followers := some 15300, following := some 9,
    public_gists := some 8 }

/-! ## `displayTopRepos` with its effect on the array passed in -/

/-- The call `displayTopRepos(repos)` as a state transformer: the first component is the
content of the array `repos` after the call, the second is what is rendered.  The method
`repos.sort(cmp)` sorts the array in place and returns that same array, `slice` copies;
no statement of the function writes a field of a record. -/
def displayTopReposInPlace (repos : List Repo) : List Repo × ReposGrid :=
  if repos.length = 0 then (repos, ReposGrid.noRepositories)
  else
    (arraySort byStarsDesc repos,
      ReposGrid.cards (slice0 CONFIG.MAX_DISPLAYED_REPOS (arraySort byStarsDesc repos)))

/-- A repository that only has a name and, possibly, a star count. -/
def repoWithStars (name : String) (stargazers_count : Option Int) : Repo :=
  { name := some name, description := none, stargazers_count := stargazers_count,
    forks_count := none, language := none, created_at := none, updated_at := none,
    html_url := none }

/-- The input `[{ name: "a", stargazers_count: 1 }, { name: "b" },
{ name: "c", stargazers_count: 5 }]`, in the order of the API response. -/
def unsortedRepos : List Repo :=
  [repoWithStars "a" (some 1), repoWithStars "b" none, repoWithStars "c" (some 5)]

/-! ## `getMockEvents` -/

/-- The function `getMockEvents(username)`.  The parameter `now` is the time value of
`new Date()` in milliseconds and `toISOString` stands for
`t => new Date(t).toISOString()`. -/
def getMockEvents (toISOString : Int → String) (now : Int) (username : String) : List Event :=
  [ { type := EventType.string "PushEvent"
      created_at := some (toISOString (now - 2 * 24 * 60 * 60 * 1000))
      repo := some { name := some (username ++ "/awesome-project") }
      payload := some { commits := some [{ sha := none }, { sha := none }, { sha := none }],
                        ref_type := none, action := none } },
    { type := EventType.string "CreateEvent"
      created_at := some (toISOString (now - 5 * 24 * 60 * 60 * 1000))
      repo := some { name := some (username ++ "/new-feature-branch") }
      payload := some { commits := none, ref_type := some "branch", action := none } },
    { type := EventType.string "WatchEvent"
      created_at := some (toISOString (now - 7 * 24 * 60 * 60 * 1000))
      repo := some { name := some (username ++ "/react-dashboard") }
      payload := some { commits := none, ref_type := none, action := none } },
    { type := EventType.string "PullRequestEvent"
      created_at := some (toISOString (now - 10 * 24 * 60 * 60 * 1000))
      repo := some { name := some (username ++ "/python-ml") }
      payload := some { commits := none, ref_type := none, action := some "opened" } },
    { type := EventType.string "IssuesEvent"
      created_at := some (toISOString (now - 12 * 24 * 60 * 60 * 1000))
      repo := some { name := some (username ++ "/mobile-app") }
      payload := some { commits := none, ref_type := none, action := some "closed" } },
    { type := EventType.string "ForkEvent"
      created_at := some (toISOString (now - 15 * 24 * 60 * 60 * 1000))
      repo := some { name := some (username ++ "/api-server") }
      payload := some { commits := none, ref_type := none, action := none } },
    { type := EventType.string "ReleaseEvent"
      created_at := some (toISOString (now - 18 * 24 * 60 * 60 * 1000))
      repo := some { name := some (username ++ "/data-viz") }
      payload := some { commits := none, ref_type := none, action := none } } ]

/-- An event that only has a type name and a payload. -/
def eventWithPayload (type : String) (payload : Option Payload) : Event :=
  { type := EventType.string type, created_at := none, repo := none, payload := payload }

/-- The payload `{ commits: [{}, {}, {}] }`. -/
def threeCommits : Payload :=
  { commits := some [{ sha := none }, { sha := none }, { sha := none }], ref_type := none,
    action := none }

/-- The payload `{ ref_type: r, action: a }`. -/
def payloadOf (ref_type action : Option String) : Payload :=
  { commits := none, ref_type := ref_type, action := action }

/-- The input with languages Go, null, Rust, Go, Python and `""`: Go is declared twice,
Rust and Python once each, Rust first. -/
def tiedLanguageRepos : List Repo :=
  [repoWithLanguage (some "Go"), repoWithLanguage none, repoWithLanguage (some "Rust"),
   repoWithLanguage (some "Go"), repoWithLanguage (some "Python"), repoWithLanguage (some "")]

/-- The order of the own keys of an object whose keys were created in the order given by
`first`: array-index numerals come first, in ascending numeric order, the other keys
follow in creation order. -/
def entryOrder (first : String → Nat) (a b : String) : Prop :=
  match arrayIndex? a, arrayIndex? b with
  | some i, some j => i < j
  | some _, none => True
  | none, some _ => False
  | none, none => first a < first b

/-- The order in which `Object.entries(languages)` lists two languages of the input:
array-index numerals first, in ascending numeric order, then the other languages in the
order of their first occurrence in the input. -/
def entryBefore (repos : List Repo) (a b : String) : Prop :=
  entryOrder (firstDeclared repos) a b

/-- The input with languages `"b"`, `"7"`, `"a"`, `"3"`, `"b"`. -/
def mixedIndexRepos : List Repo :=
  [repoWithLanguage (some "b"), repoWithLanguage (some "7"), repoWithLanguage (some "a"),
   repoWithLanguage (some "3"), repoWithLanguage (some "b")]

/-- The input with the nine languages C, Go, Rust, Dart, Java, Ruby, PHP, Lua and Zig, each
declared once, in this order. -/
def nineLanguageRepos : List Repo :=
  [repoWithLanguage (some "C"), repoWithLanguage (some "Go"), repoWithLanguage (some "Rust"),
   repoWithLanguage (some "Dart"), repoWithLanguage (some "Java"),
   repoWithLanguage (some "Ruby"), repoWithLanguage (some "PHP"),
   repoWithLanguage (some "Lua"), repoWithLanguage (some "Zig")]

/-! ## Lemmas on `arraySort` -/

section SortLemmas

variable {α : Type}

theorem sortInsert_perm (cmp : α → α → Int) (x : α) (l : List α) :
    (sortInsert cmp x l).Perm (x :: l) := by
  induction l with
  | nil => exact List.Perm.refl _
  | cons y ys ih =>
    unfold sortInsert
    split
    · exact List.Perm.refl _
    · exact (List.Perm.cons y ih).trans (List.Perm.swap x y ys)

theorem arraySort_perm (cmp : α → α → Int) (l : List α) : (arraySort cmp l).Perm l := by
  induction l with
  | nil => exact List.Perm.refl _
  | cons x xs ih =>
    exact (sortInsert_perm cmp x (arraySort cmp xs)).trans (List.Perm.cons x ih)

theorem arraySort_length (cmp : α → α → Int) (l : List α) :
    (arraySort cmp l).length = l.length :=
  (arraySort_perm cmp l).length_eq

theorem mem_arraySort (cmp : α → α → Int) (l : List α) (x : α) :
    x ∈ arraySort cmp l ↔ x ∈ l :=
  (arraySort_perm cmp l).mem_iff

theorem sortInsert_pairwise (cmp : α → α → Int)
    (htot : ∀ a b, cmp a b ≤ 0 ∨ cmp b a ≤ 0)
    (htrans : ∀ a b c, cmp a b ≤ 0 → cmp b c ≤ 0 → cmp a c ≤ 0)
    (x : α) (l : List α) (hl : l.Pairwise (fun a b => cmp a b ≤ 0)) :
    (sortInsert cmp x l).Pairwise (fun a b => cmp a b ≤ 0) := by
  induction l with
  | nil => simp [sortInsert]
  | cons y ys ih =>
    rw [List.pairwise_cons] at hl
    unfold sortInsert
    split
    · rename_i hxy
      refine List.pairwise_cons.2 ⟨?_, List.pairwise_cons.2 hl⟩
      intro z hz
      rcases List.mem_cons.1 hz with rfl | hz
      · exact hxy
      · exact htrans _ _ _ hxy (hl.1 z hz)
    · rename_i hxy
      have hyx : cmp y x ≤ 0 := (htot x y).resolve_left hxy
      refine List.pairwise_cons.2 ⟨?_, ih hl.2⟩
      intro z hz
      rcases List.mem_cons.1 ((sortInsert_perm cmp x ys).mem_iff.1 hz) with rfl | hz
      · exact hyx
      · exact hl.1 z hz

theorem arraySort_pairwise (cmp : α → α → Int)
    (htot : ∀ a b, cmp a b ≤ 0 ∨ cmp b a ≤ 0)
    (htrans : ∀ a b c, cmp a b ≤ 0 → cmp b c ≤ 0 → cmp a c ≤ 0)
    (l : List α) : (arraySort cmp l).Pairwise (fun a b => cmp a b ≤ 0) := by
  induction l with
  | nil => simp [arraySort]
  | cons x xs ih => exact sortInsert_pairwise cmp htot htrans x _ ih

/-- Stability of insertion: filtering by a class `p` of mutually tied elements commutes
with inserting. -/
theorem sortInsert_filter (cmp : α → α → Int) (p : α → Bool)
    (htie : ∀ a b, p a = true → p b = true → cmp a b ≤ 0)
    (x : α) (l : List α) :
    (sortInsert cmp x l).filter p = (x :: l).filter p := by
  induction l with
  | nil => simp [sortInsert]
  | cons y ys ih =>
    unfold sortInsert
    split
    · rfl
    · rename_i hxy
      by_cases hx : p x = true
      · have hy : p y = false := by
          by_contra hy
          exact hxy (htie x y hx (by simpa using hy))
        simp only [List.filter_cons, hy, hx] at ih ⊢
        simpa using ih
      · have hx' : p x = false := by simpa using hx
        simp only [List.filter_cons, hx'] at ih ⊢
        simp [ih]

/-- Stability of `arraySort`: the elements of a class of mutually tied elements keep their
input order. -/
theorem arraySort_filter (cmp : α → α → Int) (p : α → Bool)
    (htie : ∀ a b, p a = true → p b = true → cmp a b ≤ 0)
    (l : List α) : (arraySort cmp l).filter p = l.filter p := by
  induction l with
  | nil => rfl
  | cons x xs ih =>
    show (sortInsert cmp x (arraySort cmp xs)).filter p = _
    rw [sortInsert_filter cmp p htie, List.filter_cons, List.filter_cons, ih]

end SortLemmas

/-! ## Theorems on `displayTopRepos` -/

/-- C1: the ranked list rendered by `displayTopRepos` has `min 12 n` entries for an input of
`n` repositories, hence at most 12; it is ordered by non-increasing star count (a missing
count being 0); for every star count the rendered repositories with that count are, in
order, an initial segment of the input repositories with that count, so ties keep their
input order; and the rendered repositories together with the omitted ones are exactly the
input repositories, no omitted repository having more stars than a rendered one.  The
placeholder card is rendered exactly for the empty input. -/
theorem displayTopRepos_ranked (repos : List Repo) :
    (displayTopRepos repos).ranked.length ≤ 12 ∧
    (displayTopRepos repos).ranked.Pairwise (fun a b => b.stars ≤ a.stars) ∧
    (∀ k : Int, ((displayTopRepos repos).ranked.filter (fun r => r.stars = k)) <+:
        (repos.filter (fun r => r.stars = k))) ∧
    (∀ r ∈ (displayTopRepos repos).ranked, r ∈ repos) ∧
    (displayTopRepos repos).ranked.length = min 12 repos.length ∧
    (∃ omitted : List Repo,
      ((displayTopRepos repos).ranked ++ omitted).Perm repos ∧
      ∀ a ∈ (displayTopRepos repos).ranked, ∀ b ∈ omitted, b.stars ≤ a.stars) ∧
    (displayTopRepos repos = ReposGrid.noRepositories ↔ repos = []) := by
  have hsorted : (arraySort byStarsDesc repos).Pairwise (fun a b => b.stars ≤ a.stars) := by
    have h := arraySort_pairwise byStarsDesc
      (fun a b => by unfold byStarsDesc; omega)
      (fun a b c h1 h2 => by unfold byStarsDesc at *; omega) repos
    refine h.imp ?_
    intro a b hab
    unfold byStarsDesc at hab
    omega
  unfold displayTopRepos
  split
  · rename_i hlen
    have hnil : repos = [] := List.length_eq_zero.1 hlen
    refine ⟨by simp [ReposGrid.ranked], by simp [ReposGrid.ranked], ?_, ?_, ?_, ?_, ?_⟩
    · intro k
      simp [ReposGrid.ranked]
    · intro r hr
      simp [ReposGrid.ranked] at hr
    · simp [ReposGrid.ranked, hlen]
    · refine ⟨[], ?_, ?_⟩
      · rw [hnil]
        exact List.Perm.refl _
      · intro a _ b hb
        simp at hb
    · exact ⟨fun _ => hnil, fun _ => rfl⟩
  · rename_i hlen
    simp only [ReposGrid.ranked, slice0, CONFIG.MAX_DISPLAYED_REPOS]
    refine ⟨?_, ?_, ?_, ?_, ?_, ?_, ?_⟩
    · rw [List.length_take]
      exact Nat.min_le_left _ _
    · exact hsorted.sublist (List.take_sublist _ _)
    · intro k
      refine ⟨((arraySort byStarsDesc repos).drop 12).filter (fun r => r.stars = k), ?_⟩
      rw [← List.filter_append, List.take_append_drop]
      apply arraySort_filter
      intro a b ha hb
      have ha' : a.stars = k := by simpa using ha
      have hb' : b.stars = k := by simpa using hb
      unfold byStarsDesc
      omega
    · intro r hr
      exact (mem_arraySort _ _ _).1 (List.mem_of_mem_take hr)
    · rw [List.length_take, arraySort_length]
    · refine ⟨(arraySort byStarsDesc repos).drop 12, ?_, ?_⟩
      · rw [List.take_append_drop]
        exact arraySort_perm _ _
      · have hsplit := hsorted
        rw [← List.take_append_drop 12 (arraySort byStarsDesc repos),
          List.pairwise_append] at hsplit
        exact hsplit.2.2
    · constructor
      · intro h
        cases h
      · intro h
        exact absurd (List.length_eq_zero.2 h) hlen

/-! ## Lemmas on tables -/

theorem Table.get_set (t : Table) (k k' : String) (v : Nat) :
    (t.set k v).get k' = if k = k' then some v else t.get k' := by
  induction t with
  | nil => simp [Table.set, Table.get]
  | cons kv rest ih =>
    obtain ⟨k0, v0⟩ := kv
    by_cases h0 : k0 = k
    · subst h0
      by_cases h1 : k0 = k'
      · simp [Table.set, Table.get, h1]
      · simp [Table.set, Table.get, h1]
    · by_cases h1 : k0 = k'
      · subst h1
        have h2 : ¬ k = k0 := fun h => h0 h.symm
        simp [Table.set, Table.get, h0, h2]
      · simp [Table.set, Table.get, h0, h1, ih]

theorem Table.keys_set (t : Table) (k : String) (v : Nat) :
    (t.set k v).map Prod.fst =
      if k ∈ t.map Prod.fst then t.map Prod.fst else t.map Prod.fst ++ [k] := by
  induction t with
  | nil => simp [Table.set]
  | cons kv rest ih =>
    obtain ⟨k0, v0⟩ := kv
    by_cases h0 : k0 = k
    · subst h0
      simp [Table.set]
    · have h2 : ¬ k = k0 := fun h => h0 h.symm
      simp only [Table.set, h0, if_false, List.map_cons, ih, List.mem_cons, h2, false_or]
      split <;> simp

theorem Table.get_eq_none (t : Table) (k : String) :
    t.get k = none ↔ k ∉ t.map Prod.fst := by
  induction t with
  | nil => simp [Table.get]
  | cons kv rest ih =>
    obtain ⟨k0, v0⟩ := kv
    by_cases h0 : k0 = k
    · subst h0
      simp [Table.get]
    · have h2 : ¬ k = k0 := fun h => h0 h.symm
      simp [Table.get, h0, h2, ih]

theorem Table.get_of_mem (t : Table) (hnd : (t.map Prod.fst).Nodup) (k : String) (v : Nat)
    (h : (k, v) ∈ t) : t.get k = some v := by
  induction t with
  | nil => simp at h
  | cons kv rest ih =>
    obtain ⟨k0, v0⟩ := kv
    rw [List.map_cons, List.nodup_cons] at hnd
    rcases List.mem_cons.1 h with h | h
    · cases h
      simp [Table.get]
    · have hk : k ∈ rest.map Prod.fst := List.mem_map.2 ⟨(k, v), h, rfl⟩
      have h0 : ¬ k0 = k := fun e => hnd.1 (e ▸ hk)
      simp [Table.get, h0, ih hnd.2 h]

theorem Table.mem_of_get (t : Table) (k : String) (v : Nat) (h : t.get k = some v) :
    (k, v) ∈ t := by
  induction t with
  | nil => simp [Table.get] at h
  | cons kv rest ih =>
    obtain ⟨k0, v0⟩ := kv
    by_cases h0 : k0 = k
    · subst h0
      simp [Table.get] at h
      simp [h]
    · simp only [Table.get, h0, if_false] at h
      exact List.mem_cons_of_mem _ (ih h)

theorem Table.get_increment (t : Table) (k k' : String) :
    (t.increment k).get k' = if k = k' then some ((t.get k).getD 0 + 1) else t.get k' := by
  unfold Table.increment
  exact Table.get_set t k k' _

theorem Table.keys_increment (t : Table) (k : String) :
    (t.increment k).map Prod.fst =
      if k ∈ t.map Prod.fst then t.map Prod.fst else t.map Prod.fst ++ [k] := by
  unfold Table.increment
  exact Table.keys_set t k _

theorem tally_snoc (ks : List String) (k : String) :
    tally (ks ++ [k]) = (tally ks).increment k := by
  simp [tally, List.foldl_append]

theorem mem_keys_tally (ks : List String) :
    ∀ k : String, k ∈ (tally ks).map Prod.fst ↔ k ∈ ks := by
  induction ks using List.reverseRecOn with
  | nil => simp [tally]
  | append_singleton ks k0 ih =>
    intro k
    rw [tally_snoc, Table.keys_increment]
    split
    · rename_i hmem
      rw [ih, List.mem_append, List.mem_singleton]
      constructor
      · intro h
        exact Or.inl h
      · rintro (h | h)
        · exact h
        · subst h
          exact (ih k).1 hmem
    · rw [List.mem_append, List.mem_append, ih]

theorem nodup_keys_tally (ks : List String) : ((tally ks).map Prod.fst).Nodup := by
  induction ks using List.reverseRecOn with
  | nil => simp [tally]
  | append_singleton ks k0 ih =>
    rw [tally_snoc, Table.keys_increment]
    split
    · exact ih
    · rename_i hmem
      rw [List.nodup_append]
      refine ⟨ih, List.nodup_singleton _, ?_⟩
      intro a ha hb
      rw [List.mem_singleton] at hb
      subst hb
      exact hmem ha

theorem get_tally (ks : List String) :
    ∀ k : String, (tally ks).get k = if k ∈ ks then some (ks.count k) else none := by
  induction ks using List.reverseRecOn with
  | nil => intro k; simp [tally, Table.get]
  | append_singleton ks k0 ih =>
    intro k
    rw [tally_snoc, Table.get_increment]
    by_cases h : k0 = k
    · subst h
      rw [if_pos rfl, ih k0]
      by_cases hm : k0 ∈ ks
      · simp [hm, List.count_append]
      · simp [hm, List.count_append, List.count_eq_zero_of_not_mem hm]
    · rw [if_neg h, ih k]
      have h' : ¬ k = k0 := fun e => h e.symm
      by_cases hm : k ∈ ks
      · simp [hm, List.count_append, h, h']
      · simp [hm, h, h']

theorem getD_tally (ks : List String) (k : String) :
    ((tally ks).get k).getD 0 = ks.count k := by
  rw [get_tally]
  split
  · rfl
  · rename_i h
    simp [List.count_eq_zero_of_not_mem h]

/-- The keys of a tally are created in the order of their first occurrence. -/
theorem keys_tally_order (ks : List String) :
    ((tally ks).map Prod.fst).Pairwise (fun a b => ks.indexOf a < ks.indexOf b) := by
  induction ks using List.reverseRecOn with
  | nil => simp [tally]
  | append_singleton ks k0 ih =>
    have hkeep : ((tally ks).map Prod.fst).Pairwise
        (fun a b => (ks ++ [k0]).indexOf a < (ks ++ [k0]).indexOf b) := by
      rw [List.pairwise_iff_forall_sublist] at ih ⊢
      intro a b hab
      have ha : a ∈ ks := (mem_keys_tally ks a).1 (hab.subset (by simp))
      have hb : b ∈ ks := (mem_keys_tally ks b).1 (hab.subset (by simp))
      rw [List.indexOf_append_of_mem ha, List.indexOf_append_of_mem hb]
      exact ih hab
    rw [tally_snoc, Table.keys_increment]
    split
    · exact hkeep
    · rename_i hmem
      have hk0 : k0 ∉ ks := fun h => hmem ((mem_keys_tally ks k0).2 h)
      rw [List.pairwise_append]
      refine ⟨hkeep, List.pairwise_singleton _ _, ?_⟩
      intro a ha b hb
      rw [List.mem_singleton] at hb
      subst hb
      have ha' : a ∈ ks := (mem_keys_tally ks a).1 ha
      rw [List.indexOf_append_of_mem ha', List.indexOf_append_of_not_mem hk0]
      simp only [List.indexOf_cons_self, Nat.add_zero]
      exact List.indexOf_lt_length.2 ha'

theorem sum_values_set (t : Table) (k : String) (v : Nat) :
    ((t.set k v).map Prod.snd).sum + (t.get k).getD 0 = (t.map Prod.snd).sum + v := by
  induction t with
  | nil => simp [Table.set, Table.get]
  | cons kv rest ih =>
    obtain ⟨k0, v0⟩ := kv
    by_cases h0 : k0 = k
    · subst h0
      simp [Table.set, Table.get]
      omega
    · simp only [Table.set, Table.get, h0, if_false, List.map_cons, List.sum_cons]
      omega

theorem sum_values_tally (ks : List String) : ((tally ks).map Prod.snd).sum = ks.length := by
  induction ks using List.reverseRecOn with
  | nil => simp [tally]
  | append_singleton ks k0 ih =>
    rw [tally_snoc]
    have h := sum_values_set (tally ks) k0 (((tally ks).get k0).getD 0 + 1)
    unfold Table.increment
    rw [List.length_append, List.length_singleton]
    omega

theorem map_get_keys (t : Table) (hnd : (t.map Prod.fst).Nodup) :
    (t.map Prod.fst).map (fun k => (k, (t.get k).getD 0)) = t := by
  have h : ∀ kv ∈ t, (fun k => (k, (t.get k).getD 0)) kv.1 = kv := by
    intro kv hkv
    obtain ⟨k, v⟩ := kv
    simp [Table.get_of_mem t hnd k v hkv]
  rw [List.map_map]
  conv_rhs => rw [← List.map_id t]
  exact List.map_congr_left h

/-! ## Lemmas on `Object.keys` and `Object.entries` -/

theorem Object.keys_perm (t : Table) : (Object.keys t).Perm (t.map Prod.fst) := by
  unfold Object.keys
  refine ((arraySort_perm _ _).append_right _).trans ?_
  have h : ((t.map Prod.fst).filter (fun k => (arrayIndex? k).isNone)) =
      (t.map Prod.fst).filter (fun k => ! (arrayIndex? k).isSome) := by
    apply List.filter_congr
    intro k _
    cases arrayIndex? k <;> rfl
  rw [h]
  exact List.filter_append_perm _ _

theorem Object.keys_length (t : Table) : (Object.keys t).length = t.length := by
  rw [(Object.keys_perm t).length_eq, List.length_map]

theorem Object.keys_of_no_index (t : Table)
    (h : ∀ k ∈ t.map Prod.fst, arrayIndex? k = none) : Object.keys t = t.map Prod.fst := by
  unfold Object.keys
  have h1 : (t.map Prod.fst).filter (fun k => (arrayIndex? k).isSome) = [] := by
    rw [List.filter_eq_nil_iff]
    intro k hk
    simp [h k hk]
  have h2 : (t.map Prod.fst).filter (fun k => (arrayIndex? k).isNone) = t.map Prod.fst := by
    rw [List.filter_eq_self]
    intro k hk
    simp [h k hk]
  rw [h1, h2]
  rfl

theorem Object.entries_of_no_index (t : Table) (hnd : (t.map Prod.fst).Nodup)
    (h : ∀ k ∈ t.map Prod.fst, arrayIndex? k = none) : Object.entries t = t := by
  unfold Object.entries
  rw [Object.keys_of_no_index t h]
  exact map_get_keys t hnd

theorem Object.entries_perm (t : Table) (hnd : (t.map Prod.fst).Nodup) :
    (Object.entries t).Perm t := by
  unfold Object.entries
  have h := (Object.keys_perm t).map (fun k => (k, (t.get k).getD 0))
  rw [map_get_keys t hnd] at h
  exact h

/-! ## Lemmas on `createLanguageChart` -/

theorem arraySort_stable {α : Type} (cmp : α → α → Int) (key : α → Int)
    (hkey : ∀ a b, key a = key b → cmp a b ≤ 0) (R : α → α → Prop) (l : List α)
    (hl : l.Pairwise R) :
    (arraySort cmp l).Pairwise (fun a b => key a = key b → R a b) := by
  rw [List.pairwise_iff_forall_sublist]
  intro a b hab hk
  have h1 := hab.filter (fun x => decide (key x = key a))
  rw [arraySort_filter cmp _ (fun x y hx hy => hkey x y (by
    have hx' : key x = key a := by simpa using hx
    have hy' : key y = key a := by simpa using hy
    rw [hx', hy']))] at h1
  have h2 : [a, b].filter (fun x => decide (key x = key a)) = [a, b] := by
    simp [hk.symm]
  rw [h2] at h1
  exact (List.pairwise_iff_forall_sublist.1 hl) (h1.trans (List.filter_sublist l))

theorem countLanguages_eq_tally (repos : List Repo) :
    countLanguages repos = tally (languageKeys repos) := by
  have h : ∀ (t : Table), repos.foldl
      (fun languages repo =>
        if truthyStr repo.language then languages.increment (repo.language.getD "")
        else languages) t = (languageKeys repos).foldl Table.increment t := by
    induction repos with
    | nil => intro t; rfl
    | cons r rest ih =>
      intro t
      rw [List.foldl_cons, ih]
      unfold languageKeys
      rw [List.filterMap_cons]
      unfold Repo.languageKey
      by_cases hr : truthyStr r.language = true
      · rw [if_pos hr, if_pos hr]
        cases hl : r.language with
        | none => rw [hl] at hr; simp [truthyStr] at hr
        | some l => simp
      · rw [if_neg hr, if_neg hr]
  exact h []

theorem languageKeys_ne_empty (repos : List Repo) :
    ∀ k ∈ languageKeys repos, k ≠ "" := by
  intro k hk
  unfold languageKeys at hk
  rw [List.mem_filterMap] at hk
  obtain ⟨r, _, hr⟩ := hk
  unfold Repo.languageKey at hr
  split at hr
  · rename_i ht
    rw [hr] at ht
    simpa [truthyStr] using ht
  · cases hr

theorem count_languageKeys (repos : List Repo) (l : String) (hl : l ≠ "") :
    (languageKeys repos).count l = declaring repos l := by
  unfold languageKeys declaring
  induction repos with
  | nil => rfl
  | cons r rest ih =>
    rw [List.filterMap_cons, List.countP_cons]
    cases hr : r.language with
    | none => simp [Repo.languageKey, truthyStr, hr, ih]
    | some l' =>
      by_cases hl' : l' = ""
      · subst hl'
        have : ¬ ("" = l) := fun e => hl e.symm
        simp [Repo.languageKey, truthyStr, hr, ih, this]
      · by_cases e : l' = l
        · subst e
          simp [Repo.languageKey, truthyStr, hr, ih, hl']
        · simp [Repo.languageKey, truthyStr, hr, ih, hl', e, List.count_cons]

theorem firstDeclared_of_languageKeys (repos : List Repo) (a b : String)
    (ha : a ≠ "") (hb : b ≠ "")
    (h : (languageKeys repos).indexOf a < (languageKeys repos).indexOf b) :
    firstDeclared repos a < firstDeclared repos b := by
  unfold firstDeclared
  unfold languageKeys at h
  induction repos with
  | nil => simp at h
  | cons r rest ih =>
    rw [List.filterMap_cons] at h
    rw [List.findIdx_cons, List.findIdx_cons]
    cases hr : r.language with
    | none =>
      simp only [Repo.languageKey, truthyStr, hr] at h
      have := ih (by simpa using h)
      simpa using this
    | some l =>
      by_cases hl : l = ""
      · subst hl
        simp only [Repo.languageKey, truthyStr, hr, bne_self_eq_false] at h
        have hne1 : ¬ ("" = a) := fun e => ha e.symm
        have hne2 : ¬ ("" = b) := fun e => hb e.symm
        have := ih (by simpa using h)
        simpa [hne1, hne2] using this
      · have hkey : Repo.languageKey r = some l := by
          simp [Repo.languageKey, truthyStr, hr, hl]
        rw [hkey] at h
        simp only at h
        by_cases e1 : l = a
        · subst e1
          by_cases e2 : l = b
          · subst e2
            simp at h
          · simp [e2]
        · by_cases e2 : l = b
          · subst e2
            rw [List.indexOf_cons_ne _ e1, List.indexOf_cons_self] at h
            omega
          · rw [List.indexOf_cons_ne _ e1, List.indexOf_cons_ne _ e2] at h
            have := ih (by omega)
            simpa [e1, e2] using this

theorem countLanguages_keys_ne_zero (repos : List Repo)
    (h : ∃ r ∈ repos, ∃ l, r.language = some l ∧ l ≠ "") :
    (Object.keys (countLanguages repos)).length ≠ 0 := by
  obtain ⟨r, hr, l, hl, hne⟩ := h
  have hk : l ∈ languageKeys repos := by
    unfold languageKeys
    rw [List.mem_filterMap]
    exact ⟨r, hr, by simp [Repo.languageKey, truthyStr, hl, hne]⟩
  rw [Object.keys_length, countLanguages_eq_tally]
  have hmem := (mem_keys_tally (languageKeys repos) l).2 hk
  intro h0
  rw [List.length_eq_zero] at h0
  rw [h0] at hmem
  simp at hmem

theorem createLanguageChart_of_counted (repos : List Repo)
    (h : ∃ r ∈ repos, ∃ l, r.language = some l ∧ l ≠ "") :
    createLanguageChart repos =
      slice0 8 (arraySort byCountDesc (Object.entries (countLanguages repos))) := by
  unfold createLanguageChart
  simp only [if_neg (countLanguages_keys_ne_zero repos h)]

theorem mem_createLanguageChart (repos : List Repo)
    (h : ∃ r ∈ repos, ∃ l, r.language = some l ∧ l ≠ "") (p : String × Nat)
    (hp : p ∈ createLanguageChart repos) :
    p.1 ∈ languageKeys repos ∧ p.2 = declaring repos p.1 ∧ 0 < p.2 := by
  rw [createLanguageChart_of_counted repos h] at hp
  have h1 : p ∈ Object.entries (countLanguages repos) :=
    (mem_arraySort _ _ _).1 (List.mem_of_mem_take hp)
  rw [countLanguages_eq_tally] at h1
  have hnd := nodup_keys_tally (languageKeys repos)
  have h2 : p ∈ tally (languageKeys repos) := (Object.entries_perm _ hnd).mem_iff.1 h1
  have h3 := Table.get_of_mem _ hnd p.1 p.2 h2
  have hk : p.1 ∈ languageKeys repos :=
    (mem_keys_tally _ _).1 (List.mem_map.2 ⟨p, h2, rfl⟩)
  rw [get_tally, if_pos hk] at h3
  have h4 : (languageKeys repos).count p.1 = p.2 := by simpa using h3
  refine ⟨hk, ?_, ?_⟩
  · rw [← h4, count_languageKeys repos p.1 (languageKeys_ne_empty repos p.1 hk)]
  · rw [← h4]
    exact List.count_pos_iff.2 hk

theorem sorted_slice_byCountDesc (T : List (String × Nat)) :
    (slice0 8 (arraySort byCountDesc T)).length ≤ 8 ∧
    (slice0 8 (arraySort byCountDesc T)).Pairwise (fun p q => q.2 ≤ p.2) := by
  constructor
  · unfold slice0
    rw [List.length_take]
    exact Nat.min_le_left _ _
  · have h := arraySort_pairwise byCountDesc
      (fun a b => by unfold byCountDesc; omega)
      (fun a b c h1 h2 => by unfold byCountDesc at *; omega) T
    refine (h.imp ?_).sublist (List.take_sublist _ _)
    intro a b hab
    unfold byCountDesc at hab
    omega

/-! ## Theorems on `createLanguageChart` -/

/-- C2, counterexample: for the input `[{ language: "" }]` a repository has a non-null
language, yet no language is counted and the canned distribution is substituted. -/
theorem createLanguageChart_nonNull_counterexample :
    (∃ r ∈ emptyLanguageRepos, r.language ≠ none) ∧
    (Object.keys (countLanguages emptyLanguageRepos)).length = 0 ∧
    createLanguageChart emptyLanguageRepos = cannedLanguages :=
  ⟨⟨repoWithLanguage (some ""), List.mem_singleton_self _, by decide⟩, by decide, by decide⟩

/-- C2, amended: when every repository's language is null or the empty string, the
language-count pairs are exactly the canned distribution (JavaScript 8, Python 5,
TypeScript 4, HTML 3, CSS 2, Java 2); when at least one repository has a non-empty language
(and no language names a property inherited from `Object.prototype`), the canned
distribution is not substituted: the pairs are computed from the counted languages and
every charted label is the language of some input repository. -/
theorem createLanguageChart_canned (repos : List Repo) :
    ((∀ r ∈ repos, r.language = none ∨ r.language = some "") →
      createLanguageChart repos =
        [("JavaScript", 8), ("Python", 5), ("TypeScript", 4), ("HTML", 3), ("CSS", 2),
         ("Java", 2)]) ∧
    ((∃ r ∈ repos, ∃ l, r.language = some l ∧ l ≠ "") → ordinaryLanguages repos →
      (Object.keys (countLanguages repos)).length ≠ 0 ∧
      createLanguageChart repos =
        slice0 8 (arraySort byCountDesc (Object.entries (countLanguages repos))) ∧
      ∀ p ∈ createLanguageChart repos, ∃ r ∈ repos, r.language = some p.1) := by
  constructor
  · intro h
    have hk : languageKeys repos = [] := by
      unfold languageKeys
      rw [List.filterMap_eq_nil_iff]
      intro r hr
      rcases h r hr with h | h <;> simp [Repo.languageKey, truthyStr, h]
    unfold createLanguageChart
    rw [countLanguages_eq_tally, hk]
    decide
  · intro h _
    refine ⟨countLanguages_keys_ne_zero repos h, createLanguageChart_of_counted repos h, ?_⟩
    intro p hp
    have hk := (mem_createLanguageChart repos h p hp).1
    unfold languageKeys at hk
    rw [List.mem_filterMap] at hk
    obtain ⟨r, hr, hrk⟩ := hk
    refine ⟨r, hr, ?_⟩
    unfold Repo.languageKey at hrk
    split at hrk
    · exact hrk
    · cases hrk

/-- C2, witness: the all-null input `[{ language: null }]` yields the canned distribution,
and the sample input with languages Go, null, Rust, Go is charted from its own counts. -/
theorem createLanguageChart_canned_witness :
    createLanguageChart [repoWithLanguage none] =
      [("JavaScript", 8), ("Python", 5), ("TypeScript", 4), ("HTML", 3), ("CSS", 2),
       ("Java", 2)] ∧
    ((Object.keys (countLanguages sampleLanguageRepos)).length ≠ 0 ∧
      createLanguageChart sampleLanguageRepos =
        slice0 8 (arraySort byCountDesc (Object.entries (countLanguages sampleLanguageRepos))) ∧
      ∀ p ∈ createLanguageChart sampleLanguageRepos,
        ∃ r ∈ sampleLanguageRepos, r.language = some p.1) :=
  ⟨(createLanguageChart_canned [repoWithLanguage none]).1 (by decide),
   (createLanguageChart_canned sampleLanguageRepos).2
     ⟨repoWithLanguage (some "Go"), by decide, "Go", rfl, by decide⟩
     (by unfold ordinaryLanguages; decide)⟩

/-- C10, counterexample: for the empty input the chart pairs JavaScript with the count 8
although no repository declares JavaScript; and for the input with languages `"b"`, `"7"`
the tied pairs are charted with `"7"` first although `"b"` occurred first. -/
theorem createLanguageChart_count_counterexample :
    (("JavaScript", 8) ∈ createLanguageChart [] ∧ declaring [] "JavaScript" = 0) ∧
    (createLanguageChart indexLanguageRepos = [("7", 1), ("b", 1)] ∧
      firstDeclared indexLanguageRepos "b" < firstDeclared indexLanguageRepos "7") := by
  decide

theorem length_tally (ks : List String) : (tally ks).length = ks.dedup.length := by
  have hperm : ((tally ks).map Prod.fst).Perm ks.dedup :=
    (List.perm_ext_iff_of_nodup (nodup_keys_tally ks) (List.nodup_dedup ks)).2
      (fun a => by rw [mem_keys_tally, List.mem_dedup])
  rw [← hperm.length_eq, List.length_map]

theorem mem_tally_of_mem (ks : List String) (l : String) (h : l ∈ ks) :
    (l, ks.count l) ∈ tally ks := by
  apply Table.mem_of_get
  rw [get_tally, if_pos h]

theorem sortedEntries_perm (repos : List Repo) :
    (arraySort byCountDesc (Object.entries (countLanguages repos))).Perm
      (tally (languageKeys repos)) := by
  rw [countLanguages_eq_tally]
  exact (arraySort_perm _ _).trans (Object.entries_perm _ (nodup_keys_tally _))

theorem sortedEntries_pairwise (T : List (String × Nat)) :
    (arraySort byCountDesc T).Pairwise (fun p q => q.2 ≤ p.2) := by
  have h := arraySort_pairwise byCountDesc
    (fun a b => by unfold byCountDesc; omega)
    (fun a b c h1 h2 => by unfold byCountDesc at *; omega) T
  refine h.imp ?_
  intro a b hab
  unfold byCountDesc at hab
  omega

theorem sortedEntries_order (repos : List Repo) (hidx : noIndexLanguages repos) :
    (arraySort byCountDesc (Object.entries (countLanguages repos))).Pairwise
      (fun p q => p.2 = q.2 →
        (languageKeys repos).indexOf p.1 < (languageKeys repos).indexOf q.1) := by
  have hnd := nodup_keys_tally (languageKeys repos)
  have hent : Object.entries (countLanguages repos) = tally (languageKeys repos) := by
    rw [countLanguages_eq_tally]
    apply Object.entries_of_no_index _ hnd
    intro k hk
    exact hidx k ((mem_keys_tally _ _).1 hk)
  have horder : (tally (languageKeys repos)).Pairwise
      (fun p q => (languageKeys repos).indexOf p.1 < (languageKeys repos).indexOf q.1) := by
    have h0 := keys_tally_order (languageKeys repos)
    rw [List.pairwise_map] at h0
    exact h0
  have hstable := arraySort_stable byCountDesc (fun p => (p.2 : Int))
    (fun a b hab => by
      have hab' : (a.2 : Int) = (b.2 : Int) := hab
      unfold byCountDesc
      omega) _ _ horder
  rw [hent]
  refine hstable.imp ?_
  intro p q hpq heq
  exact hpq (show ((p.2 : Nat) : Int) = ((q.2 : Nat) : Int) by rw [heq])

theorem arrayIndex_eq_some (k : String) (i : Nat) (h : arrayIndex? k = some i) :
    toString i = k := by
  unfold arrayIndex? at h
  split at h
  · rename_i n _
    split at h
    · rename_i hc
      cases h
      exact hc.1
    · cases h
  · cases h

theorem keys_pairwise_entryOrder (ks : List String) :
    (Object.keys (tally ks)).Pairwise (entryOrder (fun k => ks.indexOf k)) := by
  have hnd := nodup_keys_tally ks
  have hord := keys_tally_order ks
  unfold Object.keys
  rw [List.pairwise_append]
  refine ⟨?_, ?_, ?_⟩
  · have hsorted := arraySort_pairwise byIndex
      (fun a b => by unfold byIndex; omega)
      (fun a b c h1 h2 => by unfold byIndex at *; omega)
      (((tally ks).map Prod.fst).filter (fun k => (arrayIndex? k).isSome))
    have hnd2 : (arraySort byIndex
        (((tally ks).map Prod.fst).filter (fun k => (arrayIndex? k).isSome))).Nodup :=
      (arraySort_perm _ _).nodup_iff.2 (hnd.sublist (List.filter_sublist _))
    refine (hsorted.and hnd2).imp_of_mem ?_
    intro a b ha hb hab
    have ha' := (List.mem_filter.1 ((mem_arraySort _ _ _).1 ha)).2
    have hb' := (List.mem_filter.1 ((mem_arraySort _ _ _).1 hb)).2
    obtain ⟨i, hi⟩ := Option.isSome_iff_exists.1 ha'
    obtain ⟨j, hj⟩ := Option.isSome_iff_exists.1 hb'
    have hle := hab.1
    unfold byIndex at hle
    rw [hi, hj] at hle
    simp only [Option.getD_some] at hle
    have hne : i ≠ j := by
      intro e
      apply hab.2
      rw [← arrayIndex_eq_some a i hi, ← arrayIndex_eq_some b j hj, e]
    unfold entryOrder
    rw [hi, hj]
    simp only
    omega
  · have hsub : (((tally ks).map Prod.fst).filter (fun k => (arrayIndex? k).isNone)).Pairwise
        (fun a b => ks.indexOf a < ks.indexOf b) :=
      hord.sublist (List.filter_sublist _)
    refine hsub.imp_of_mem ?_
    intro a b ha hb hab
    have ha' := (List.mem_filter.1 ha).2
    have hb' := (List.mem_filter.1 hb).2
    have hi : arrayIndex? a = none := by simpa using ha'
    have hj : arrayIndex? b = none := by simpa using hb'
    unfold entryOrder
    rw [hi, hj]
    exact hab
  · intro a ha b hb
    have ha' := (List.mem_filter.1 ((mem_arraySort _ _ _).1 ha)).2
    have hb' := (List.mem_filter.1 hb).2
    obtain ⟨i, hi⟩ := Option.isSome_iff_exists.1 ha'
    have hj : arrayIndex? b = none := by simpa using hb'
    unfold entryOrder
    rw [hi, hj]
    trivial

theorem sortedEntries_entryOrder (repos : List Repo) :
    (arraySort byCountDesc (Object.entries (countLanguages repos))).Pairwise
      (fun p q => p.2 = q.2 →
        entryOrder (fun k => (languageKeys repos).indexOf k) p.1 q.1) := by
  have hkeys := keys_pairwise_entryOrder (languageKeys repos)
  have hent : (Object.entries (countLanguages repos)).Pairwise
      (fun p q => entryOrder (fun k => (languageKeys repos).indexOf k) p.1 q.1) := by
    rw [countLanguages_eq_tally]
    unfold Object.entries
    rw [List.pairwise_map]
    exact hkeys
  have hstable := arraySort_stable byCountDesc (fun p => (p.2 : Int))
    (fun a b hab => by
      have hab' : (a.2 : Int) = (b.2 : Int) := hab
      unfold byCountDesc
      omega) _ _ hent
  refine hstable.imp ?_
  intro p q hpq heq
  exact hpq (show ((p.2 : Nat) : Int) = ((q.2 : Nat) : Int) by rw [heq])

theorem entryBefore_of_keys (repos : List Repo) (a b : String)
    (ha : a ∈ languageKeys repos) (hb : b ∈ languageKeys repos)
    (h : entryOrder (fun k => (languageKeys repos).indexOf k) a b) : entryBefore repos a b := by
  unfold entryBefore
  unfold entryOrder at h ⊢
  cases hi : arrayIndex? a <;> cases hj : arrayIndex? b <;> rw [hi, hj] at h <;>
    simp only at h ⊢
  · exact firstDeclared_of_languageKeys repos a b (languageKeys_ne_empty repos a ha)
      (languageKeys_ne_empty repos b hb) h
  · exact h

theorem take_drop_of_pairwise {α : Type} (R : α → α → Prop) (n : Nat) (l : List α)
    (h : l.Pairwise R) : ∀ a ∈ l.take n, ∀ b ∈ l.drop n, R a b := by
  rw [← List.take_append_drop n l, List.pairwise_append] at h
  exact h.2.2

/-- C10, amended: provided no language names a property inherited from `Object.prototype`,
the charted language-count pairs number at most 8 and are ordered by non-increasing count.
When no repository has a non-empty language they are the canned distribution.  When at
least one repository has a non-empty language: each pair's count is the (positive) number
of repositories declaring that language; no language is charted twice; the number of pairs
is the number of distinct non-empty languages, capped at 8; every non-empty language of
the input is charted unless all charted languages are declared at least as often; and,
provided no language is an array-index numeral, any two pairs with equal counts appear in
the order in which their languages first occurred in the input, an omitted language being
declared less often than every charted one or equally often and first occurring later.
In general two pairs with equal counts appear in the order of `Object.entries`
(array-index numerals first, in ascending numeric order, then the other languages in order
of first occurrence), and an omitted language comes after every charted language with the
same count in that order. -/
theorem createLanguageChart_sorted (repos : List Repo) (_hord : ordinaryLanguages repos) :
    (createLanguageChart repos).length ≤ 8 ∧
    (createLanguageChart repos).Pairwise (fun p q => q.2 ≤ p.2) ∧
    ((∀ r ∈ repos, r.language = none ∨ r.language = some "") →
      createLanguageChart repos =
        [("JavaScript", 8), ("Python", 5), ("TypeScript", 4), ("HTML", 3), ("CSS", 2),
         ("Java", 2)]) ∧
    ((∃ r ∈ repos, ∃ l, r.language = some l ∧ l ≠ "") →
      (∀ p ∈ createLanguageChart repos, p.2 = declaring repos p.1 ∧ 0 < p.2) ∧
      ((createLanguageChart repos).map Prod.fst).Nodup ∧
      (createLanguageChart repos).length = min 8 (languageKeys repos).dedup.length ∧
      (∀ l ∈ languageKeys repos,
        (∃ p ∈ createLanguageChart repos, p.1 = l) ∨
        ∀ p ∈ createLanguageChart repos, declaring repos l ≤ p.2) ∧
      (noIndexLanguages repos →
        (createLanguageChart repos).Pairwise
          (fun p q => p.2 = q.2 → firstDeclared repos p.1 < firstDeclared repos q.1) ∧
        ∀ l ∈ languageKeys repos,
          (∃ p ∈ createLanguageChart repos, p.1 = l) ∨
          ∀ p ∈ createLanguageChart repos,
            declaring repos l < p.2 ∨
            (declaring repos l = p.2 ∧ firstDeclared repos p.1 < firstDeclared repos l)) ∧
      (createLanguageChart repos).Pairwise
        (fun p q => p.2 = q.2 → entryBefore repos p.1 q.1) ∧
      (∀ l ∈ languageKeys repos,
        (∃ p ∈ createLanguageChart repos, p.1 = l) ∨
        ∀ p ∈ createLanguageChart repos,
          declaring repos l < p.2 ∨ (declaring repos l = p.2 ∧ entryBefore repos p.1 l))) := by
  refine ⟨?_, ?_, ?_, ?_⟩
  · unfold createLanguageChart
    exact (sorted_slice_byCountDesc _).1
  · unfold createLanguageChart
    exact (sorted_slice_byCountDesc _).2
  · intro h
    have hk : languageKeys repos = [] := by
      unfold languageKeys
      rw [List.filterMap_eq_nil_iff]
      intro r hr
      rcases h r hr with h | h <;> simp [Repo.languageKey, truthyStr, h]
    unfold createLanguageChart
    rw [countLanguages_eq_tally, hk]
    decide
  · intro h
    have hchart := createLanguageChart_of_counted repos h
    have hperm := sortedEntries_perm repos
    have hsplit : ∀ l ∈ languageKeys repos,
        (l, (languageKeys repos).count l) ∈ createLanguageChart repos ∨
        (l, (languageKeys repos).count l) ∈
          (arraySort byCountDesc (Object.entries (countLanguages repos))).drop 8 := by
      intro l hl
      have hmem := hperm.mem_iff.2 (mem_tally_of_mem _ l hl)
      rw [← List.take_append_drop 8
        (arraySort byCountDesc (Object.entries (countLanguages repos))),
        List.mem_append] at hmem
      rw [hchart]
      exact hmem
    refine ⟨fun p hp => (mem_createLanguageChart repos h p hp).2, ?_, ?_, ?_, ?_, ?_, ?_⟩
    · rw [hchart]
      unfold slice0
      have hnd : ((arraySort byCountDesc
          (Object.entries (countLanguages repos))).map Prod.fst).Nodup :=
        (hperm.map Prod.fst).nodup_iff.2 (nodup_keys_tally _)
      exact hnd.sublist ((List.take_sublist _ _).map Prod.fst)
    · rw [hchart]
      unfold slice0
      rw [List.length_take, hperm.length_eq, length_tally]
    · intro l hl
      rcases hsplit l hl with hin | hout
      · exact Or.inl ⟨_, hin, rfl⟩
      · right
        intro p hp
        rw [hchart] at hp
        have := take_drop_of_pairwise _ 8 _ (sortedEntries_pairwise _) p hp _ hout
        rw [← count_languageKeys repos l (languageKeys_ne_empty repos l hl)]
        exact this
    · intro hidx
      have hord := sortedEntries_order repos hidx
      constructor
      · have hc : (createLanguageChart repos).Pairwise
            (fun p q => p.2 = q.2 →
              (languageKeys repos).indexOf p.1 < (languageKeys repos).indexOf q.1) := by
          rw [hchart]
          exact hord.sublist (List.take_sublist _ _)
        refine hc.imp_of_mem ?_
        intro p q hp hq hpq heq
        have hp1 := (mem_createLanguageChart repos h p hp).1
        have hq1 := (mem_createLanguageChart repos h q hq).1
        exact firstDeclared_of_languageKeys repos p.1 q.1
          (languageKeys_ne_empty repos _ hp1) (languageKeys_ne_empty repos _ hq1) (hpq heq)
      · intro l hl
        rcases hsplit l hl with hin | hout
        · exact Or.inl ⟨_, hin, rfl⟩
        · right
          intro p hp
          have hp1 := (mem_createLanguageChart repos h p hp).1
          rw [hchart] at hp
          have hle := take_drop_of_pairwise _ 8 _ (sortedEntries_pairwise _) p hp _ hout
          have htie := take_drop_of_pairwise _ 8 _ hord p hp _ hout
          rw [← count_languageKeys repos l (languageKeys_ne_empty repos l hl)]
          simp only at hle htie
          by_cases heq : p.2 = (languageKeys repos).count l
          · right
            exact ⟨heq.symm, firstDeclared_of_languageKeys repos p.1 l
              (languageKeys_ne_empty repos _ hp1) (languageKeys_ne_empty repos l hl)
              (htie heq)⟩
          · left
            omega
    · have hc : (createLanguageChart repos).Pairwise
          (fun p q => p.2 = q.2 →
            entryOrder (fun k => (languageKeys repos).indexOf k) p.1 q.1) := by
        rw [hchart]
        exact (sortedEntries_entryOrder repos).sublist (List.take_sublist _ _)
      refine hc.imp_of_mem ?_
      intro p q hp hq hpq heq
      exact entryBefore_of_keys repos p.1 q.1 (mem_createLanguageChart repos h p hp).1
        (mem_createLanguageChart repos h q hq).1 (hpq heq)
    · intro l hl
      rcases hsplit l hl with hin | hout
      · exact Or.inl ⟨_, hin, rfl⟩
      · right
        intro p hp
        have hp1 := (mem_createLanguageChart repos h p hp).1
        rw [hchart] at hp
        have hle := take_drop_of_pairwise _ 8 _ (sortedEntries_pairwise _) p hp _ hout
        have htie := take_drop_of_pairwise _ 8 _ (sortedEntries_entryOrder repos) p hp _ hout
        rw [← count_languageKeys repos l (languageKeys_ne_empty repos l hl)]
        simp only at hle htie
        by_cases heq : p.2 = (languageKeys repos).count l
        · right
          exact ⟨heq.symm, entryBefore_of_keys repos p.1 l hp1 hl (htie heq)⟩
        · left
          omega

/-- C10, witness: the input with languages Go, null, Rust, Go, Python and `""` has ordinary
language names, a non-empty language and no array-index numeral; it is charted as Go 2,
Rust 1, Python 1, the tie between Rust and Python being in the order of first occurrence,
and its chart has the stated properties.  The input with languages `"b"`, `"7"`, `"a"`,
`"3"`, `"b"` is charted as b 2, 3 1, 7 1, a 1, its ties being in the order of
`Object.entries`.  Of nine languages declared once each the first eight are charted. -/
theorem createLanguageChart_sorted_witness :
    createLanguageChart tiedLanguageRepos = [("Go", 2), ("Rust", 1), ("Python", 1)] ∧
    (∀ p ∈ createLanguageChart tiedLanguageRepos,
      p.2 = declaring tiedLanguageRepos p.1 ∧ 0 < p.2) ∧
    ((createLanguageChart tiedLanguageRepos).map Prod.fst).Nodup ∧
    (createLanguageChart tiedLanguageRepos).length =
      min 8 (languageKeys tiedLanguageRepos).dedup.length ∧
    (∀ l ∈ languageKeys tiedLanguageRepos,
      (∃ p ∈ createLanguageChart tiedLanguageRepos, p.1 = l) ∨
      ∀ p ∈ createLanguageChart tiedLanguageRepos, declaring tiedLanguageRepos l ≤ p.2) ∧
    (createLanguageChart tiedLanguageRepos).Pairwise
      (fun p q => p.2 = q.2 →
        firstDeclared tiedLanguageRepos p.1 < firstDeclared tiedLanguageRepos q.1) ∧
    (∀ l ∈ languageKeys tiedLanguageRepos,
      (∃ p ∈ createLanguageChart tiedLanguageRepos, p.1 = l) ∨
      ∀ p ∈ createLanguageChart tiedLanguageRepos,
        declaring tiedLanguageRepos l < p.2 ∨
        (declaring tiedLanguageRepos l = p.2 ∧
          firstDeclared tiedLanguageRepos p.1 < firstDeclared tiedLanguageRepos l)) ∧
    createLanguageChart mixedIndexRepos = [("b", 2), ("3", 1), ("7", 1), ("a", 1)] ∧
    (createLanguageChart mixedIndexRepos).Pairwise
      (fun p q => p.2 = q.2 → entryBefore mixedIndexRepos p.1 q.1) ∧
    createLanguageChart nineLanguageRepos =
      [("C", 1), ("Go", 1), ("Rust", 1), ("Dart", 1), ("Java", 1), ("Ruby", 1), ("PHP", 1),
       ("Lua", 1)] ∧
    (createLanguageChart nineLanguageRepos).length =
      min 8 (languageKeys nineLanguageRepos).dedup.length := by
  have h := (createLanguageChart_sorted tiedLanguageRepos
    (by unfold ordinaryLanguages; decide)).2.2.2
    ⟨repoWithLanguage (some "Go"), by decide, "Go", rfl, by decide⟩
  have h5 := h.2.2.2.2.1 (by unfold noIndexLanguages; decide)
  have g := (createLanguageChart_sorted mixedIndexRepos
    (by unfold ordinaryLanguages; decide)).2.2.2
    ⟨repoWithLanguage (some "b"), by decide, "b", rfl, by decide⟩
  have k := (createLanguageChart_sorted nineLanguageRepos
    (by unfold ordinaryLanguages; decide)).2.2.2
    ⟨repoWithLanguage (some "C"), by decide, "C", rfl, by decide⟩
  exact ⟨by decide, h.1, h.2.1, h.2.2.1, h.2.2.2.1, h5.1, h5.2, by decide, g.2.2.2.2.2.1,
    by decide, k.2.2.1⟩

/-! ## Lemmas on `createGrowthChart` -/

theorem countReposByYear_eq_tally (getFullYear : String → Option Int) (repos : List Repo) :
    countReposByYear getFullYear repos = tally (yearKeys getFullYear repos) := by
  have h : ∀ (t : Table), repos.foldl
      (fun reposByYear repo =>
        if truthyStr repo.created_at then
          reposByYear.increment (numberToString (getFullYear (repo.created_at.getD "")))
        else reposByYear) t = (yearKeys getFullYear repos).foldl Table.increment t := by
    induction repos with
    | nil => intro t; rfl
    | cons r rest ih =>
      intro t
      rw [List.foldl_cons, ih]
      unfold yearKeys creationYears
      rw [List.filterMap_cons]
      unfold Repo.creationYear
      by_cases hr : truthyStr r.created_at = true
      · rw [if_pos hr, if_pos hr]
        simp
      · rw [if_neg hr, if_neg hr]
  exact h []

theorem length_yearKeys (getFullYear : String → Option Int) (repos : List Repo) :
    (yearKeys getFullYear repos).length = dated repos := by
  unfold yearKeys creationYears dated
  rw [List.length_map]
  induction repos with
  | nil => rfl
  | cons r rest ih =>
    rw [List.filterMap_cons, List.countP_cons]
    by_cases hr : truthyStr r.created_at = true
    · have hh : Repo.creationYear getFullYear r =
          some (getFullYear (r.created_at.getD "")) := by
        simp [Repo.creationYear, hr]
      rw [hh]
      simp [hr, ih]
    · have hh : Repo.creationYear getFullYear r = none := by
        simp [Repo.creationYear, hr]
      rw [hh]
      simp [hr, ih]

theorem cumulate_length (t : Table) (ys : List String) :
    ∀ c : Nat, (cumulate t ys c).length = ys.length := by
  induction ys with
  | nil => intro c; rfl
  | cons y rest ih => intro c; simp [cumulate, ih]

theorem cumulate_ge (t : Table) (ys : List String) :
    ∀ c : Nat, ∀ x ∈ cumulate t ys c, c ≤ x := by
  induction ys with
  | nil => intro c x hx; simp [cumulate] at hx
  | cons y rest ih =>
    intro c x hx
    rw [cumulate, List.mem_cons] at hx
    rcases hx with hx | hx
    · omega
    · have := ih _ x hx
      omega

theorem cumulate_pairwise (t : Table) (ys : List String) :
    ∀ c : Nat, (cumulate t ys c).Pairwise (fun a b => a ≤ b) := by
  induction ys with
  | nil => intro c; simp [cumulate]
  | cons y rest ih =>
    intro c
    rw [cumulate, List.pairwise_cons]
    exact ⟨fun x hx => cumulate_ge t rest _ x hx, ih _⟩

theorem cumulate_getLast (t : Table) (ys : List String) :
    ∀ c : Nat, (cumulate t ys c).getLast?.getD c =
      c + (ys.map (fun y => (t.get y).getD 0)).sum := by
  induction ys with
  | nil => intro c; simp [cumulate]
  | cons y rest ih =>
    intro c
    rw [cumulate, List.getLast?_cons, Option.getD_some, ih]
    simp only [List.map_cons, List.sum_cons]
    omega

theorem sum_counts_keys (t : Table) (hnd : (t.map Prod.fst).Nodup) (ys : List String)
    (hperm : ys.Perm (t.map Prod.fst)) :
    (ys.map (fun y => (t.get y).getD 0)).sum = (t.map Prod.snd).sum := by
  rw [(hperm.map _).sum_eq]
  have h := congrArg (List.map Prod.snd) (map_get_keys t hnd)
  rw [List.map_map] at h
  rw [← h]
  rfl

/-! ## Theorems on `createGrowthChart` -/

/-- C3, counterexample: for the input `[{ created_at: "" }, { created_at:
"2020-06-15T12:00:00Z" }]` the cumulative series is `[1]`, so its final value is 1, while
2 repositories have a non-null creation date. -/
theorem createGrowthChart_nonNull_counterexample :
    (createGrowthChart isoYear emptyDateRepos).2 = [1] ∧
    emptyDateRepos.countP (fun r => r.created_at.isSome) = 2 := by
  decide

/-- C3, amended: for every repository sequence (and every behaviour of the date parser)
the cumulative series built by `createGrowthChart` is non-decreasing, and it is empty when
no repository has a non-empty creation date and otherwise ends with the number of
repositories that have a non-null, non-empty creation date. -/
theorem createGrowthChart_cumulative (getFullYear : String → Option Int)
    (repos : List Repo) :
    (createGrowthChart getFullYear repos).2.Pairwise (fun a b => a ≤ b) ∧
    (createGrowthChart getFullYear repos).2.getLast? =
      if dated repos = 0 then none else some (dated repos) := by
  unfold createGrowthChart
  simp only
  refine ⟨cumulate_pairwise _ _ _, ?_⟩
  have hperm : (arraySort defaultCompare
      (Object.keys (countReposByYear getFullYear repos))).Perm
      ((countReposByYear getFullYear repos).map Prod.fst) :=
    (arraySort_perm _ _).trans (Object.keys_perm _)
  have hnd : ((countReposByYear getFullYear repos).map Prod.fst).Nodup := by
    rw [countReposByYear_eq_tally]
    exact nodup_keys_tally _
  have hlast := cumulate_getLast (countReposByYear getFullYear repos)
    (arraySort defaultCompare (Object.keys (countReposByYear getFullYear repos))) 0
  rw [sum_counts_keys _ hnd _ hperm] at hlast
  have hsum : ((countReposByYear getFullYear repos).map Prod.snd).sum = dated repos := by
    rw [countReposByYear_eq_tally, sum_values_tally, length_yearKeys]
  rw [hsum, Nat.zero_add] at hlast
  have hlen := cumulate_length (countReposByYear getFullYear repos)
    (arraySort defaultCompare (Object.keys (countReposByYear getFullYear repos))) 0
  rw [hperm.length_eq, List.length_map] at hlen
  cases hdata : (cumulate (countReposByYear getFullYear repos)
      (arraySort defaultCompare (Object.keys (countReposByYear getFullYear repos))) 0).getLast?
    with
  | none =>
    rw [hdata] at hlast
    have h0 : dated repos = 0 := by simpa using hlast.symm
    rw [if_pos h0]
  | some x =>
    rw [hdata] at hlast
    have hx : x = dated repos := by simpa using hlast
    have hne : dated repos ≠ 0 := by
      intro h0
      have hk : yearKeys getFullYear repos = [] := by
        rw [← List.length_eq_zero, length_yearKeys, h0]
      rw [countReposByYear_eq_tally, hk] at hlen
      have hnil := List.length_eq_zero.1 hlen
      rw [countReposByYear_eq_tally, hk, hnil] at hdata
      simp at hdata
    rw [if_neg hne, hx]

/-! ## Lemmas on numerals and the string order -/

theorem digitChar_toNat : ∀ d < 10,
    (Nat.digitChar d).toNat = 48 + d ∧ (Nat.digitChar d).isDigit = true := by
  decide

theorem toDigits_four (n : Nat) (h1 : 1000 ≤ n) (h2 : n ≤ 9999) :
    Nat.toDigits 10 n = [Nat.digitChar (n / 1000), Nat.digitChar (n / 100 % 10),
      Nat.digitChar (n / 10 % 10), Nat.digitChar (n % 10)] := by
  obtain ⟨m, rfl⟩ : ∃ m, n = m + 3 := ⟨n - 3, by omega⟩
  have e1 : (m + 3) / 10 ≠ 0 := by omega
  have e2 : (m + 3) / 10 / 10 ≠ 0 := by omega
  have e3 : (m + 3) / 10 / 10 / 10 ≠ 0 := by omega
  have e4 : (m + 3) / 10 / 10 / 10 / 10 = 0 := by omega
  have d1 : (m + 3) / 10 / 10 / 10 = (m + 3) / 1000 := by omega
  have d2 : (m + 3) / 10 / 10 % 10 = (m + 3) / 100 % 10 := by omega
  simp only [Nat.toDigits, Nat.toDigitsCore, e1, e2, e3, e4, if_false, if_true]
  rw [← d1, ← d2]
  congr 1
  · congr 1
    omega

theorem toString_four (n : Nat) (h1 : 1000 ≤ n) (h2 : n ≤ 9999) :
    (toString (n : Int)).data = [Nat.digitChar (n / 1000), Nat.digitChar (n / 100 % 10),
      Nat.digitChar (n / 10 % 10), Nat.digitChar (n % 10)] := by
  show (Nat.repr n).data = _
  unfold Nat.repr
  rw [toDigits_four n h1 h2]
  rfl

theorem codeUnits_four (n : Nat) (h1 : 1000 ≤ n) (h2 : n ≤ 9999) :
    codeUnits (toString (n : Int)) =
      [48 + n / 1000, 48 + n / 100 % 10, 48 + n / 10 % 10, 48 + n % 10] := by
  unfold codeUnits
  rw [toString_four n h1 h2]
  have a3 := (digitChar_toNat (n / 1000) (by omega)).1
  have a2 := (digitChar_toNat (n / 100 % 10) (by omega)).1
  have a1 := (digitChar_toNat (n / 10 % 10) (by omega)).1
  have a0 := (digitChar_toNat (n % 10) (by omega)).1
  have b3 : 48 + n / 1000 < 65536 := by omega
  have b2 : 48 + n / 100 % 10 < 65536 := by omega
  have b1 : 48 + n / 10 % 10 < 65536 := by omega
  have b0 : 48 + n % 10 < 65536 := by omega
  simp only [listCodeUnits, charCodeUnits, a3, a2, a1, a0, b3, b2, b1, b0, if_true,
    List.cons_append, List.nil_append]

theorem labelYear_four (n : Nat) (h1 : 1000 ≤ n) (h2 : n ≤ 9999) :
    labelYear (toString (n : Int)) = (n : Int) := by
  unfold labelYear
  rw [toString_four n h1 h2]
  have a3 := digitChar_toNat (n / 1000) (by omega)
  have a2 := digitChar_toNat (n / 100 % 10) (by omega)
  have a1 := digitChar_toNat (n / 10 % 10) (by omega)
  have a0 := digitChar_toNat (n % 10) (by omega)
  simp only [digitsValue, List.foldl_cons, List.foldl_nil, a3.2, a2.2, a1.2, a0.2, if_true,
    a3.1, a2.1, a1.1, a0.1, Option.getD_some]
  congr 1
  omega

theorem lexLt_four (a b : Nat) (ha1 : 1000 ≤ a) (ha2 : a ≤ 9999) (hb1 : 1000 ≤ b)
    (hb2 : b ≤ 9999) :
    lexLt (codeUnits (toString (a : Int))) (codeUnits (toString (b : Int))) = true ↔ a < b := by
  rw [codeUnits_four a ha1 ha2, codeUnits_four b hb1 hb2]
  simp only [lexLt]
  constructor
  · intro h
    split_ifs at h <;> omega
  · intro h
    split_ifs <;> first | rfl | omega

theorem lexLt_iff_lex (a : List Nat) :
    ∀ b : List Nat, lexLt a b = true ↔ List.Lex (fun x y => x < y) a b := by
  induction a with
  | nil =>
    intro b
    cases b with
    | nil => simp [lexLt, List.Lex.not_nil_right]
    | cons y ys => simp [lexLt, List.Lex.nil]
  | cons x xs ih =>
    intro b
    cases b with
    | nil => simp [lexLt, List.Lex.not_nil_right]
    | cons y ys =>
      rw [lexLt]
      by_cases h1 : x < y
      · simp only [h1, if_true, true_iff]
        exact List.Lex.rel h1
      · by_cases h2 : y < x
        · simp only [h1, h2, if_false, if_true, Bool.false_eq_true, false_iff]
          intro h
          cases h with
          | cons h' => omega
          | rel h' => omega
        · have hxy : x = y := by omega
          subst hxy
          simp only [h1, if_false, ih ys]
          exact (List.Lex.cons_iff).symm

theorem defaultCompare_le_iff (x y : String) :
    defaultCompare x y ≤ 0 ↔ ¬ List.Lex (fun a b => a < b) (codeUnits y) (codeUnits x) := by
  unfold defaultCompare
  rw [← lexLt_iff_lex]
  by_cases h1 : lexLt (codeUnits x) (codeUnits y) = true
  · have h2 : ¬ lexLt (codeUnits y) (codeUnits x) = true := by
      rw [lexLt_iff_lex] at h1 ⊢
      exact asymm h1
    simp [h1, h2]
  · by_cases h2 : lexLt (codeUnits y) (codeUnits x) = true
    · simp [h1, h2]
    · simp [h1, h2]

theorem defaultCompare_total (x y : String) :
    defaultCompare x y ≤ 0 ∨ defaultCompare y x ≤ 0 := by
  rw [defaultCompare_le_iff, defaultCompare_le_iff]
  by_cases h : List.Lex (fun a b => a < b) (codeUnits y) (codeUnits x)
  · exact Or.inr (asymm h)
  · exact Or.inl h

theorem defaultCompare_trans (x y z : String) (h1 : defaultCompare x y ≤ 0)
    (h2 : defaultCompare y z ≤ 0) : defaultCompare x z ≤ 0 := by
  rw [defaultCompare_le_iff] at *
  intro h
  rcases trichotomous_of (List.Lex (fun a b : Nat => a < b)) (codeUnits y) (codeUnits x)
    with h3 | h3 | h3
  · exact h1 h3
  · rw [h3] at h2
    exact h2 h
  · exact h2 (IsTrans.trans _ _ _ h h3)

theorem labelYear_toString (n : Int) (h1 : 1000 ≤ n) (h2 : n ≤ 9999) :
    labelYear (toString n) = n := by
  obtain ⟨k, rfl⟩ := Int.eq_ofNat_of_zero_le (by omega : 0 ≤ n)
  exact labelYear_four k (by omega) (by omega)

theorem defaultCompare_toString (a b : Int) (ha1 : 1000 ≤ a) (ha2 : a ≤ 9999)
    (hb1 : 1000 ≤ b) (hb2 : b ≤ 9999) :
    defaultCompare (toString a) (toString b) ≤ 0 ↔ a ≤ b := by
  obtain ⟨j, rfl⟩ := Int.eq_ofNat_of_zero_le (by omega : 0 ≤ a)
  obtain ⟨k, rfl⟩ := Int.eq_ofNat_of_zero_le (by omega : 0 ≤ b)
  rw [defaultCompare_le_iff, ← lexLt_iff_lex,
    lexLt_four k j (by omega) (by omega) (by omega) (by omega)]
  omega

theorem countP_add_eq {α : Type} (p q r : α → Bool) (l : List α)
    (h : ∀ x ∈ l, (p x).toNat + (q x).toNat = (r x).toNat) :
    l.countP p + l.countP q = l.countP r := by
  induction l with
  | nil => rfl
  | cons x xs ih =>
    have hx := h x (List.mem_cons_self _ _)
    have ih' := ih (fun y hy => h y (List.mem_cons_of_mem _ hy))
    rw [List.countP_cons, List.countP_cons, List.countP_cons]
    cases hp : p x <;> cases hq : q x <;> cases hr : r x <;>
      simp [hp, hq, hr] at hx ⊢ <;> omega

theorem count_yearKey (Y : List (Option Int))
    (hY : ∀ y ∈ Y, ∃ n : Int, y = some n ∧ 1000 ≤ n ∧ n ≤ 9999)
    (n : Int) (h1 : 1000 ≤ n) (h2 : n ≤ 9999) :
    (Y.map numberToString).count (toString n) = Y.countP (fun y => decide (y = some n)) := by
  rw [List.count, List.countP_map]
  apply List.countP_congr
  intro y hy
  obtain ⟨m, rfl, hm1, hm2⟩ := hY y hy
  simp only [Function.comp, numberToString, beq_iff_eq, decide_eq_true_eq, Option.some.injEq]
  constructor
  · intro e
    have := congrArg labelYear e
    rwa [labelYear_toString m hm1 hm2, labelYear_toString n h1 h2] at this
  · intro e
    rw [e]

theorem cumulate_years (Y : List (Option Int))
    (hY : ∀ y ∈ Y, ∃ n : Int, y = some n ∧ 1000 ≤ n ∧ n ≤ 9999) (L : List Int) :
    ∀ c : Nat, L.Pairwise (fun a b => a < b) → (∀ n ∈ L, 1000 ≤ n ∧ n ≤ 9999) →
      (∀ m : Int, some m ∈ Y → m ∈ L ∨ ∀ n ∈ L, m < n) → c = Y.countP (yearBelow L) →
      cumulate (tally (Y.map numberToString)) (L.map (fun n => toString n)) c =
        L.map (fun n => Y.countP (yearLe n)) := by
  induction L with
  | nil => intro c _ _ _ _; rfl
  | cons n rest ih =>
    intro c hsorted hrange hcover hc
    rw [List.pairwise_cons] at hsorted
    have hn := hrange n (List.mem_cons_self _ _)
    have hstep : c + ((tally (Y.map numberToString)).get (toString n)).getD 0 =
        Y.countP (yearLe n) := by
      rw [getD_tally, count_yearKey Y hY n hn.1 hn.2, hc]
      apply countP_add_eq
      intro y hy
      obtain ⟨m, rfl, _, _⟩ := hY y hy
      rcases hcover m hy with hm | hm
      · rcases List.mem_cons.1 hm with hm | hm
        · subst hm
          simp [yearBelow, yearLe]
        · have := hsorted.1 m hm
          have h1 : ¬ m = n := by omega
          have h2 : ¬ m ≤ n := by omega
          have h3 : ¬ m < n := by omega
          simp [yearBelow, yearLe, h1, h2, h3]
      · have := hm n (List.mem_cons_self _ _)
        have h1 : ¬ m = n := by omega
        have h2 : m ≤ n := by omega
        have h3 : ∀ k ∈ rest, m < k := fun k hk => hm k (List.mem_cons_of_mem _ hk)
        have h4 : (rest.all fun k => decide (m < k)) = true := by
          rw [List.all_eq_true]
          intro k hk
          simpa using h3 k hk
        simp [yearBelow, yearLe, h1, h2, this, h4]
    rw [List.map_cons, List.map_cons, cumulate, hstep]
    congr 1
    apply ih _ hsorted.2 (fun k hk => hrange k (List.mem_cons_of_mem _ hk))
    · intro m hm
      rcases hcover m hm with h | h
      · rcases List.mem_cons.1 h with h | h
        · subst h
          exact Or.inr hsorted.1
        · exact Or.inl h
      · exact Or.inr (fun k hk => h k (List.mem_cons_of_mem _ hk))
    · apply List.countP_congr
      intro y hy
      obtain ⟨m, rfl, _, _⟩ := hY y hy
      simp only [yearLe, yearBelow, decide_eq_true_eq, List.all_eq_true]
      constructor
      · intro hle k hk
        have := hsorted.1 k hk
        omega
      · intro hbelow
        rcases hcover m hy with h | h
        · rcases List.mem_cons.1 h with h | h
          · omega
          · have := hbelow m h
            omega
        · have := h n (List.mem_cons_self _ _)
          omega

theorem mem_yearKeys_tally (getFullYear : String → Option Int) (repos : List Repo) (s : String) :
    s ∈ arraySort defaultCompare (Object.keys (countReposByYear getFullYear repos)) ↔
      s ∈ yearKeys getFullYear repos := by
  rw [mem_arraySort, (Object.keys_perm _).mem_iff, countReposByYear_eq_tally, mem_keys_tally]

/-- C4, counterexample: with one repository created in the year 999 and one in 2020, the
labels are `["2020", "999"]`, not in ascending calendar order, and the value paired with
2020 is 1 although 2 repositories were created in 2020 or earlier. -/
theorem createGrowthChart_years_counterexample :
    creationYears isoYear earlyYearRepos = [some 999, some 2020] ∧
    createGrowthChart isoYear earlyYearRepos = (["2020", "999"], [1, 2]) ∧
    (creationYears isoYear earlyYearRepos).countP (yearLe 2020) = 2 := by
  decide

/-- C4, amended: when every creation year is a four-digit year (1000 to 9999), the year
labels of `createGrowthChart` are the decimal numerals of a strictly ascending list of
years that contains exactly the creation years of the input, each once, and the cumulative
value paired with a year is the number of repositories created in that year or an earlier
one. -/
theorem createGrowthChart_years (getFullYear : String → Option Int) (repos : List Repo)
    (h : fourDigitYears getFullYear repos) :
    ∃ ys : List Int,
      ys.Pairwise (fun a b => a < b) ∧
      (∀ n : Int, n ∈ ys ↔ some n ∈ creationYears getFullYear repos) ∧
      (createGrowthChart getFullYear repos).1 = ys.map (fun n => toString n) ∧
      (createGrowthChart getFullYear repos).2 =
        ys.map (fun n => (creationYears getFullYear repos).countP (yearLe n)) := by
  have hmem : ∀ s ∈ arraySort defaultCompare
      (Object.keys (countReposByYear getFullYear repos)),
      ∃ n : Int, s = toString n ∧ 1000 ≤ n ∧ n ≤ 9999 ∧
        some n ∈ creationYears getFullYear repos := by
    intro s hs
    rw [mem_yearKeys_tally] at hs
    unfold yearKeys at hs
    rw [List.mem_map] at hs
    obtain ⟨y, hy, rfl⟩ := hs
    obtain ⟨n, rfl, h1, h2⟩ := h y hy
    exact ⟨n, rfl, h1, h2, hy⟩
  have hyears : arraySort defaultCompare (Object.keys (countReposByYear getFullYear repos)) =
      ((arraySort defaultCompare (Object.keys (countReposByYear getFullYear repos))).map
        labelYear).map (fun n => toString n) := by
    rw [List.map_map]
    conv_lhs => rw [← List.map_id (arraySort defaultCompare
      (Object.keys (countReposByYear getFullYear repos)))]
    apply List.map_congr_left
    intro s hs
    obtain ⟨n, rfl, h1, h2, _⟩ := hmem s hs
    simp [labelYear_toString n h1 h2]
  have hsorted := arraySort_pairwise defaultCompare defaultCompare_total defaultCompare_trans
    (Object.keys (countReposByYear getFullYear repos))
  have hnodup : (arraySort defaultCompare
      (Object.keys (countReposByYear getFullYear repos))).Nodup := by
    rw [((arraySort_perm _ _).trans (Object.keys_perm _)).nodup_iff, countReposByYear_eq_tally]
    exact nodup_keys_tally _
  have hstrict : ((arraySort defaultCompare
      (Object.keys (countReposByYear getFullYear repos))).map labelYear).Pairwise
      (fun a b => a < b) := by
    rw [List.pairwise_map]
    refine (hsorted.and hnodup).imp_of_mem ?_
    intro a b ha hb hab
    obtain ⟨m, rfl, hm1, hm2, _⟩ := hmem a ha
    obtain ⟨n, rfl, hn1, hn2, _⟩ := hmem b hb
    rw [labelYear_toString m hm1 hm2, labelYear_toString n hn1 hn2]
    have hle := (defaultCompare_toString m n hm1 hm2 hn1 hn2).1 hab.1
    have hne : m ≠ n := fun e => hab.2 (by rw [e])
    omega
  have hiff : ∀ n : Int, n ∈ (arraySort defaultCompare
      (Object.keys (countReposByYear getFullYear repos))).map labelYear ↔
      some n ∈ creationYears getFullYear repos := by
    intro n
    rw [List.mem_map]
    constructor
    · rintro ⟨s, hs, rfl⟩
      obtain ⟨m, rfl, hm1, hm2, hm⟩ := hmem s hs
      rw [labelYear_toString m hm1 hm2]
      exact hm
    · intro hn
      obtain ⟨m, hm, h1, h2⟩ := h (some n) hn
      cases hm
      refine ⟨toString n, ?_, labelYear_toString n h1 h2⟩
      rw [mem_yearKeys_tally]
      unfold yearKeys
      exact List.mem_map.2 ⟨some n, hn, rfl⟩
  have hrange : ∀ n ∈ (arraySort defaultCompare
      (Object.keys (countReposByYear getFullYear repos))).map labelYear,
      1000 ≤ n ∧ n ≤ 9999 := by
    intro n hn
    obtain ⟨m, hm, h1, h2⟩ := h (some n) ((hiff n).1 hn)
    cases hm
    exact ⟨h1, h2⟩
  have hzero : 0 = (creationYears getFullYear repos).countP
      (yearBelow ((arraySort defaultCompare
        (Object.keys (countReposByYear getFullYear repos))).map labelYear)) := by
    symm
    rw [List.countP_eq_zero]
    intro y hy
    obtain ⟨m, rfl, _, _⟩ := h y hy
    have hm := (hiff m).2 hy
    simp only [yearBelow, List.all_eq_true, decide_eq_true_eq, not_forall]
    exact ⟨m, hm, by omega⟩
  have hcum := cumulate_years (creationYears getFullYear repos) h _ 0 hstrict hrange
    (fun m hm => Or.inl ((hiff m).2 hm)) hzero
  rw [← hyears] at hcum
  refine ⟨_, hstrict, hiff, hyears, ?_⟩
  unfold createGrowthChart
  simp only
  rw [countReposByYear_eq_tally]
  rw [countReposByYear_eq_tally] at hcum
  exact hcum

/-- C4, witness: the sample input with creation dates in 2023, 2022, 2023 and 2021 has
four-digit creation years only; its labels are 2021, 2022, 2023 with the cumulative values
1, 2, 4. -/
theorem createGrowthChart_years_witness :
    createGrowthChart isoYear sampleDateRepos = (["2021", "2022", "2023"], [1, 2, 4]) ∧
    ∃ ys : List Int,
      ys.Pairwise (fun a b => a < b) ∧
      (∀ n : Int, n ∈ ys ↔ some n ∈ creationYears isoYear sampleDateRepos) ∧
      (createGrowthChart isoYear sampleDateRepos).1 = ys.map (fun n => toString n) ∧
      (createGrowthChart isoYear sampleDateRepos).2 =
        ys.map (fun n => (creationYears isoYear sampleDateRepos).countP (yearLe n)) :=
  ⟨by decide, createGrowthChart_years isoYear sampleDateRepos (by
    have hY : creationYears isoYear sampleDateRepos =
        [some 2023, some 2022, some 2023, some 2021] := by decide
    intro y hy
    rw [hY] at hy
    simp only [List.mem_cons, List.mem_singleton, List.not_mem_nil, or_false] at hy
    rcases hy with rfl | rfl | rfl | rfl
    · exact ⟨2023, rfl, by decide, by decide⟩
    · exact ⟨2022, rfl, by decide, by decide⟩
    · exact ⟨2023, rfl, by decide, by decide⟩
    · exact ⟨2021, rfl, by decide, by decide⟩)⟩

/-! ## Lemmas on `formatNumber` -/

theorem bitLengthAux_le (fuel : Nat) :
    ∀ n k : Nat, n < 2 ^ k → bitLengthAux fuel n ≤ k := by
  induction fuel with
  | zero => intro n k _; simp [bitLengthAux]
  | succ fuel ih =>
    intro n k h
    rw [bitLengthAux]
    split
    · exact Nat.zero_le _
    · rename_i hn
      cases k with
      | zero => simp at h; omega
      | succ k =>
        have : n / 2 < 2 ^ k := by
          rw [Nat.pow_succ] at h
          omega
        have := ih (n / 2) k this
        omega

theorem bitLength_le (n k : Nat) (h : n < 2 ^ k) : bitLength n ≤ k :=
  bitLengthAux_le n n k h

theorem roundHalfEven_bounds (a q : Nat) (hq : 0 < q) :
    2 * (q * roundHalfEven a q) ≤ 2 * a + q ∧ 2 * a ≤ 2 * (q * roundHalfEven a q) + q := by
  have hdiv : q * (a / q) + a % q = a := Nat.div_add_mod a q
  have hmod : a % q < q := Nat.mod_lt a hq
  have hsucc : q * (a / q + 1) = q * (a / q) + q := Nat.mul_succ q (a / q)
  unfold roundHalfEven
  split
  · omega
  · split
    · rw [hsucc]
      omega
    · split
      · omega
      · rw [hsucc]
        omega

/-- The rounding step of `toFixed(1)` after a division by 1000 whose quotient is not
halfway between two tenths. -/
theorem tenths_of_thousandth (n P m : Nat) (hP : 500 < P)
    (h1 : 2 * (1000 * m) ≤ 2 * (n * P) + 1000) (h2 : 2 * (n * P) ≤ 2 * (1000 * m) + 1000)
    (htie : n % 100 ≠ 50) : (20 * m + P) / (2 * P) = (n + 50) / 100 := by
  have hlo : (100 * ((n + 50) / 100) + 1) * P ≤ (n + 50) * P :=
    Nat.mul_le_mul_right P (by omega)
  have hhi : (n + 50) * P ≤ (100 * ((n + 50) / 100) + 99) * P :=
    Nat.mul_le_mul_right P (by omega)
  rw [Nat.add_mul, Nat.add_mul, Nat.mul_assoc] at hlo hhi
  have e1 : (n + 50) / 100 * (2 * P) = 2 * ((n + 50) / 100 * P) := by ring
  have e2 : ((n + 50) / 100).succ * (2 * P) = 2 * ((n + 50) / 100 * P) + 2 * P := by
    rw [Nat.succ_mul, e1]
  apply Nat.div_eq_of_lt_le
  · rw [e1]
    omega
  · rw [e2]
    omega

/-- The rounding step of `toFixed(1)` after a division by 1000000 whose quotient is not
halfway between two tenths. -/
theorem tenths_of_millionth (n P m : Nat) (hP : 500000 < P)
    (h1 : 2 * (1000000 * m) ≤ 2 * (n * P) + 1000000)
    (h2 : 2 * (n * P) ≤ 2 * (1000000 * m) + 1000000)
    (htie : n % 100000 ≠ 50000) : (20 * m + P) / (2 * P) = (n + 50000) / 100000 := by
  have hlo : (100000 * ((n + 50000) / 100000) + 1) * P ≤ (n + 50000) * P :=
    Nat.mul_le_mul_right P (by omega)
  have hhi : (n + 50000) * P ≤ (100000 * ((n + 50000) / 100000) + 99999) * P :=
    Nat.mul_le_mul_right P (by omega)
  rw [Nat.add_mul, Nat.add_mul, Nat.mul_assoc] at hlo hhi
  have e1 : (n + 50000) / 100000 * (2 * P) = 2 * ((n + 50000) / 100000 * P) := by ring
  have e2 : ((n + 50000) / 100000).succ * (2 * P) =
      2 * ((n + 50000) / 100000 * P) + 2 * P := by
    rw [Nat.succ_mul, e1]
  apply Nat.div_eq_of_lt_le
  · rw [e1]
    omega
  · rw [e2]
    omega

/-- The rounding step of `toFixed(1)` after a division by 1000 whose quotient is exactly
halfway between two tenths: either neighbour can result. -/
theorem tenths_of_thousandth_tie (n P m : Nat) (hn : 1000 ≤ n) (hP : 500 < P)
    (h1 : 2 * (1000 * m) ≤ 2 * (n * P) + 1000) (h2 : 2 * (n * P) ≤ 2 * (1000 * m) + 1000)
    (htie : n % 100 = 50) :
    (20 * m + P) / (2 * P) = (n + 50) / 100 ∨ (20 * m + P) / (2 * P) + 1 = (n + 50) / 100 := by
  obtain ⟨t, ht⟩ : ∃ t, (n + 50) / 100 = t + 1 := ⟨(n + 50) / 100 - 1, by omega⟩
  have hexact : (n + 50) * P = (100 * (t + 1)) * P := by
    congr 1
    omega
  rw [Nat.add_mul, Nat.mul_assoc, Nat.add_mul, Nat.one_mul] at hexact
  rw [ht]
  have e1 : (t + 1) * (2 * P) = 2 * (t * P) + 2 * P := by ring
  have e2 : (t + 1).succ * (2 * P) = 2 * (t * P) + 4 * P := by
    rw [Nat.succ_mul, e1]
    omega
  have e0 : t * (2 * P) = 2 * (t * P) := by ring
  by_cases hc : 2 * (t * P) + 2 * P ≤ 20 * m + P
  · left
    apply Nat.div_eq_of_lt_le
    · rw [e1]
      exact hc
    · rw [e2]
      omega
  · right
    have : (20 * m + P) / (2 * P) = t := by
      apply Nat.div_eq_of_lt_le
      · rw [e0]
        omega
      · show 20 * m + P < (t + 1) * (2 * P)
        rw [e1]
        omega
    omega

/-- The rounding step of `toFixed(1)` after a division by 1000000 whose quotient is
exactly halfway between two tenths: either neighbour can result. -/
theorem tenths_of_millionth_tie (n P m : Nat) (hn : 1000000 ≤ n) (hP : 500000 < P)
    (h1 : 2 * (1000000 * m) ≤ 2 * (n * P) + 1000000)
    (h2 : 2 * (n * P) ≤ 2 * (1000000 * m) + 1000000)
    (htie : n % 100000 = 50000) :
    (20 * m + P) / (2 * P) = (n + 50000) / 100000 ∨
      (20 * m + P) / (2 * P) + 1 = (n + 50000) / 100000 := by
  obtain ⟨t, ht⟩ : ∃ t, (n + 50000) / 100000 = t + 1 := ⟨(n + 50000) / 100000 - 1, by omega⟩
  have hexact : (n + 50000) * P = (100000 * (t + 1)) * P := by
    congr 1
    omega
  rw [Nat.add_mul, Nat.mul_assoc, Nat.add_mul, Nat.one_mul] at hexact
  rw [ht]
  have e1 : (t + 1) * (2 * P) = 2 * (t * P) + 2 * P := by ring
  have e2 : (t + 1).succ * (2 * P) = 2 * (t * P) + 4 * P := by
    rw [Nat.succ_mul, e1]
    omega
  have e0 : t * (2 * P) = 2 * (t * P) := by ring
  by_cases hc : 2 * (t * P) + 2 * P ≤ 20 * m + P
  · left
    apply Nat.div_eq_of_lt_le
    · rw [e1]
      exact hc
    · rw [e2]
      omega
  · right
    have : (20 * m + P) / (2 * P) = t := by
      apply Nat.div_eq_of_lt_le
      · rw [e0]
        omega
      · show 20 * m + P < (t + 1) * (2 * P)
        rw [e1]
        omega
    omega

theorem float64Div_thousand (n : Nat) (h1 : 1000 ≤ n) (h2 : n < 1000000) :
    ∃ P m : Nat, float64Div n 1000 = (m, P) ∧ 500 < P ∧
      2 * (1000 * m) ≤ 2 * (n * P) + 1000 ∧ 2 * (n * P) ≤ 2 * (1000 * m) + 1000 := by
  have hbl : bitLength (n / 1000) ≤ 10 := bitLength_le _ _ (by norm_num; omega)
  have he : bitLength (n / 1000) - 1 ≤ 52 := by omega
  refine ⟨2 ^ (52 - (bitLength (n / 1000) - 1)),
    roundHalfEven (n * 2 ^ (52 - (bitLength (n / 1000) - 1))) 1000, ?_, ?_, ?_⟩
  · unfold float64Div
    rw [if_pos he]
  · have : 2 ^ 9 ≤ 2 ^ (52 - (bitLength (n / 1000) - 1)) :=
      Nat.pow_le_pow_right (by norm_num) (by omega)
    have e : (2 : Nat) ^ 9 = 512 := by norm_num
    omega
  · exact roundHalfEven_bounds _ 1000 (by norm_num)

theorem float64Div_million (n : Nat) (h1 : 1000000 ≤ n) (h2 : n < 2 ^ 53) :
    ∃ P m : Nat, float64Div n 1000000 = (m, P) ∧ 500000 < P ∧
      2 * (1000000 * m) ≤ 2 * (n * P) + 1000000 ∧
      2 * (n * P) ≤ 2 * (1000000 * m) + 1000000 := by
  have hbl : bitLength (n / 1000000) ≤ 34 := bitLength_le _ _ (by norm_num at h2 ⊢; omega)
  have he : bitLength (n / 1000000) - 1 ≤ 52 := by omega
  refine ⟨2 ^ (52 - (bitLength (n / 1000000) - 1)),
    roundHalfEven (n * 2 ^ (52 - (bitLength (n / 1000000) - 1))) 1000000, ?_, ?_, ?_⟩
  · unfold float64Div
    rw [if_pos he]
  · have : 2 ^ 19 ≤ 2 ^ (52 - (bitLength (n / 1000000) - 1)) :=
      Nat.pow_le_pow_right (by norm_num) (by omega)
    have e : (2 : Nat) ^ 19 = 524288 := by norm_num
    omega
  · exact roundHalfEven_bounds _ 1000000 (by norm_num)

/-! ## Theorems on `formatNumber` -/

/-- C5, counterexample: `formatNumber(1150)` is "1.1K", whereas 1150 / 1000 = 1.15 rounded
half-up to one decimal place is 1.2: the binary64 quotient lies just below 1.15. -/
theorem formatNumber_halfUp_counterexample :
    formatNumber 1150 = "1.1K" ∧ tenths (halfUpTenths 1150 1000) ++ "K" = "1.2K" := by
  decide

/-- C5, amended: for every integer `0 ≤ n < 2 ^ 53`, `formatNumber(n)` is the plain decimal
numeral of `n` when `n < 1000`; when `1000 ≤ n < 1000000` it is `n / 1000` rounded to one
decimal place followed by "K", rounded half-up whenever `n / 1000` is not exactly halfway
between two tenths (`n % 100 ≠ 50`) and to one of the two neighbouring tenths otherwise;
when `n ≥ 1000000` it is `n / 1000000` rounded in the same way (half-up unless
`n % 100000 = 50000`) followed by "M"; and `formatNumber(999) = "999"`, `formatNumber(1500) = "1.5K"`,
`formatNumber(2300000) = "2.3M"`. -/
theorem formatNumber_rounding (n : Nat) (hsafe : n < 2 ^ 53) :
    (n < 1000 → formatNumber (n : Int) = toString n) ∧
    (1000 ≤ n → n < 1000000 → n % 100 ≠ 50 →
      formatNumber (n : Int) = tenths (halfUpTenths n 1000) ++ "K") ∧
    (1000 ≤ n → n < 1000000 → n % 100 = 50 →
      formatNumber (n : Int) = tenths (halfUpTenths n 1000) ++ "K" ∨
      formatNumber (n : Int) = tenths (halfUpTenths n 1000 - 1) ++ "K") ∧
    (1000000 ≤ n → n % 100000 ≠ 50000 →
      formatNumber (n : Int) = tenths (halfUpTenths n 1000000) ++ "M") ∧
    (1000000 ≤ n → n % 100000 = 50000 →
      formatNumber (n : Int) = tenths (halfUpTenths n 1000000) ++ "M" ∨
      formatNumber (n : Int) = tenths (halfUpTenths n 1000000 - 1) ++ "M") ∧
    formatNumber 999 = "999" ∧ formatNumber 1500 = "1.5K" ∧
    formatNumber 2300000 = "2.3M" := by
  refine ⟨?_, ?_, ?_, ?_, ?_, by decide, by decide, by decide⟩
  · intro h
    unfold formatNumber
    rw [if_neg (by omega), if_neg (by omega)]
    rfl
  · intro h1 h2 htie
    obtain ⟨P, m, hdiv, hP, hb1, hb2⟩ := float64Div_thousand n h1 h2
    unfold formatNumber
    rw [if_neg (by omega), if_pos (by omega), Int.toNat_ofNat, hdiv]
    unfold toFixed1 halfUpTenths
    simp only
    rw [tenths_of_thousandth n P m hP hb1 hb2 htie]
    congr 2
    omega
  · intro h1 h2 htie
    obtain ⟨P, m, hdiv, hP, hb1, hb2⟩ := float64Div_thousand n h1 h2
    have hup : halfUpTenths n 1000 = (n + 50) / 100 := by
      unfold halfUpTenths
      omega
    unfold formatNumber
    rw [if_neg (by omega), if_pos (by omega), Int.toNat_ofNat, hdiv, hup]
    unfold toFixed1
    simp only
    rcases tenths_of_thousandth_tie n P m h1 hP hb1 hb2 htie with h | h
    · left
      rw [h]
    · right
      rw [← h]
      rfl
  · intro h1 htie
    obtain ⟨P, m, hdiv, hP, hb1, hb2⟩ := float64Div_million n h1 hsafe
    unfold formatNumber
    rw [if_pos (by omega), Int.toNat_ofNat, hdiv]
    unfold toFixed1 halfUpTenths
    simp only
    rw [tenths_of_millionth n P m hP hb1 hb2 htie]
    congr 2
    omega
  · intro h1 htie
    obtain ⟨P, m, hdiv, hP, hb1, hb2⟩ := float64Div_million n h1 hsafe
    have hup : halfUpTenths n 1000000 = (n + 50000) / 100000 := by
      unfold halfUpTenths
      omega
    unfold formatNumber
    rw [if_pos (by omega), Int.toNat_ofNat, hdiv, hup]
    unfold toFixed1
    simp only
    rcases tenths_of_millionth_tie n P m h1 hP hb1 hb2 htie with h | h
    · left
      rw [h]
    · right
      rw [← h]
      rfl

/-- C5, witness: 1234567 is below `2 ^ 53` and 1.234567 is not halfway between two
tenths, so `formatNumber(1234567)` is its half-up rounding "1.2M". -/
theorem formatNumber_rounding_witness :
    formatNumber ((1234567 : Nat) : Int) = tenths (halfUpTenths 1234567 1000000) ++ "M" ∧
    tenths (halfUpTenths 1234567 1000000) ++ "M" = "1.2M" :=
  ⟨(formatNumber_rounding 1234567 (by norm_num)).2.2.2.1 (by norm_num) (by norm_num),
    by decide⟩

/-! ## Lemmas on `replaceFirst` -/

theorem replaceFirst_of_not_occursIn (pattern replacement : List Char) (s : List Char)
    (h : occursIn pattern s = false) : replaceFirst pattern replacement s = s := by
  induction s with
  | nil =>
    have hp : ¬ pattern = [] := by simpa [occursIn] using h
    simp [replaceFirst, hp]
  | cons c cs ih =>
    simp only [occursIn, Bool.or_eq_false_iff, decide_eq_false_iff_not] at h
    rw [replaceFirst, if_neg h.1, ih h.2]

theorem replaceFirst_first (pattern replacement post : List Char) (hp : pattern ≠ []) :
    ∀ pre : List Char, occursIn pattern (pre ++ pattern.dropLast) = false →
      replaceFirst pattern replacement (pre ++ pattern ++ post) = pre ++ replacement ++ post := by
  intro pre
  induction pre with
  | nil =>
    intro _
    obtain ⟨c, cs, hc⟩ := List.exists_cons_of_ne_nil hp
    have htake : (pattern ++ post).take pattern.length = pattern := List.take_left' rfl
    have hdrop : (pattern ++ post).drop pattern.length = post := List.drop_left' rfl
    rw [List.nil_append, List.nil_append]
    rw [hc] at htake hdrop ⊢
    rw [List.cons_append] at htake hdrop ⊢
    rw [replaceFirst, if_pos htake, hdrop]
  | cons c pre ih =>
    intro h
    rw [List.cons_append] at h
    simp only [occursIn, Bool.or_eq_false_iff, decide_eq_false_iff_not] at h
    have hlen : pattern.length ≤ (c :: (pre ++ pattern.dropLast)).length := by
      have := List.length_pos.2 hp
      simp only [List.length_cons, List.length_append, List.length_dropLast]
      omega
    have hsplit : c :: pre ++ pattern ++ post =
        (c :: (pre ++ pattern.dropLast)) ++ ([pattern.getLast hp] ++ post) := by
      conv_lhs => rw [← List.dropLast_append_getLast hp]
      simp
    have htake : (c :: (pre ++ pattern ++ post)).take pattern.length ≠ pattern := by
      have e : c :: (pre ++ pattern ++ post) = c :: pre ++ pattern ++ post := by simp
      rw [e, hsplit, List.take_append_of_le_length hlen]
      exact h.1
    rw [List.cons_append, List.cons_append, replaceFirst, if_neg htake, ih h.2]
    simp

/-! ## Theorems on `getEventDescription` -/

theorem describeEvent_unrecognized (event : Event) (t : String)
    (ht : event.type = EventType.string t) (hun : t ∉ recognizedTypes) :
    describeEvent event = Except.ok (stringReplace t "Event" "") := by
  simp only [recognizedTypes, List.mem_cons, List.mem_singleton, List.not_mem_nil, or_false,
    not_or] at hun
  obtain ⟨h1, h2, h3, h4, h5, h6, h7, h8, h9, h10⟩ := hun
  unfold describeEvent
  rw [ht]
  simp only [h1, h2, h3, h4, h5, h6, h7, h8, h9, h10, if_false]

/-- C6, counterexample: the unrecognized type "EventLog" does not end in "Event", yet its
title is "Log" instead of the unchanged type; and for "EventFooEvent" the title is
"FooEvent", whereas stripping the suffix "Event" gives "EventFoo". -/
theorem getEventDescription_suffix_counterexample :
    "EventLog" ∉ recognizedTypes ∧
    getEventDescription (eventOfType (EventType.string "EventLog")) = Except.ok "Log" ∧
    stripEventSuffix "EventLog" = "EventLog" ∧
    "EventFooEvent" ∉ recognizedTypes ∧
    getEventDescription (eventOfType (EventType.string "EventFooEvent")) =
      Except.ok "FooEvent" ∧
    stripEventSuffix "EventFooEvent" = "EventFoo" :=
  ⟨by decide, rfl, by decide, by decide, rfl, by decide⟩

/-- C6, amended: for every event whose type is a string that is not one of the ten
recognized event types, `getEventDescription` returns the type name with its first
occurrence of "Event" removed; this is the type name unchanged when it does not contain
"Event", and the type name with the suffix "Event" stripped when it ends in "Event" and
contains no earlier occurrence of "Event"; for type "FooEvent" the title is "Foo". -/
theorem getEventDescription_unrecognized (event : Event) (t : String)
    (ht : event.type = EventType.string t) (hun : t ∉ recognizedTypes) :
    getEventDescription event = Except.ok (stringReplace t "Event" "") ∧
    (containsEvent t = false → getEventDescription event = Except.ok t) ∧
    (∀ pre : String, t = pre ++ "Event" → containsEvent (pre ++ "Even") = false →
      getEventDescription event = Except.ok pre) ∧
    (t = "FooEvent" → getEventDescription event = Except.ok "Foo") := by
  have hdesc : getEventDescription event = Except.ok (stringReplace t "Event" "") := by
    unfold getEventDescription
    rw [describeEvent_unrecognized event t ht hun]
  refine ⟨hdesc, ?_, ?_, ?_⟩
  · intro h
    rw [hdesc]
    unfold stringReplace
    unfold containsEvent at h
    rw [replaceFirst_of_not_occursIn _ _ _ h]
  · intro pre hpre h
    rw [hdesc, hpre]
    unfold stringReplace
    unfold containsEvent at h
    have hdata : (pre ++ "Event").data = pre.data ++ "Event".data ++ [] := by
      rw [String.data_append, List.append_nil]
    have hdata2 : (pre ++ "Even").data = pre.data ++ ("Event".data).dropLast := by
      rw [String.data_append]
      rfl
    rw [hdata2] at h
    rw [hdata, replaceFirst_first "Event".data "".data [] (by decide) pre.data h]
    simp
  · intro h
    rw [hdesc, h]
    rfl

/-- C6, witness: the type "FooEvent" is unrecognized, so its title is "Foo", and the type
"Deployment" is returned unchanged. -/
theorem getEventDescription_unrecognized_witness :
    getEventDescription (eventOfType (EventType.string "FooEvent")) = Except.ok "Foo" ∧
    getEventDescription (eventOfType (EventType.string "Deployment")) =
      Except.ok "Deployment" :=
  ⟨(getEventDescription_unrecognized (eventOfType (EventType.string "FooEvent")) "FooEvent"
      rfl (by decide)).2.2.1 "Foo" (by decide) (by decide),
   (getEventDescription_unrecognized (eventOfType (EventType.string "Deployment"))
      "Deployment" rfl (by decide)).2.1 (by decide)⟩

/-- C8: for every event `getEventDescription` returns a title and raises no error; when
the event's type is absent (missing or null), or is not a string, the title is
"Repository activity". -/
theorem getEventDescription_total (event : Event) :
    ∃ title : String, getEventDescription event = Except.ok title ∧
      (event.type = EventType.absent → title = "Repository activity") ∧
      (event.type = EventType.other → title = "Repository activity") := by
  unfold getEventDescription
  cases hd : describeEvent event with
  | ok title =>
    refine ⟨title, rfl, ?_, ?_⟩
    · intro h
      unfold describeEvent at hd
      rw [h] at hd
      cases hd
    · intro h
      unfold describeEvent at hd
      rw [h] at hd
      cases hd
  | error err => exact ⟨"Repository activity", rfl, fun _ => rfl, fun _ => rfl⟩

/-- C8, witness: an event without a type is described as "Repository activity". -/
theorem getEventDescription_total_witness :
    getEventDescription (eventOfType EventType.absent) = Except.ok "Repository activity" :=
  (getEventDescription_total (eventOfType EventType.absent)).elim
    (fun _ h => h.1.trans (congrArg Except.ok (h.2.1 rfl)))

/-! ## Theorems on `formatDate` -/

/-- C7, the code at the failing input: for an invalid date, such as the one constructed
from an unparseable timestamp, `toLocaleDateString` does not throw, so `formatDate` returns
"Invalid Date" and not "Unknown date". -/
theorem formatDate_invalidDate (enUS : Int → String) :
    formatDate enUS (newDate (fun _ => none) "not a date") = "Invalid Date" ∧
    formatDate enUS (newDate (fun _ => none) "not a date") ≠ "Unknown date" :=
  ⟨rfl, fun h => absurd (show "Invalid Date" = "Unknown date" from h) (by decide)⟩

/-! ## Theorems on `displayProfile` -/

/-- C9, counterexample: for the record `{ name: "", login: "octocat" }` the name is present
(the empty string), yet the login is shown as name. -/
theorem displayProfile_present_counterexample :
    emptyNameUser.name = some "" ∧ (displayProfile emptyNameUser).profileName = "octocat" := by
  decide

/-- C9, amended: for every profile record, `displayProfile` shows as name the record's name
if present and non-empty, otherwise its login if present and non-empty, otherwise "N/A"; as
bio the record's bio if present and non-empty, otherwise "No bio available"; and each of
the four counters as `formatNumber` of the field's value, or of 0 when the field is
missing.  On the fully empty record this yields name "N/A", bio "No bio available" and all
four counters "0". -/
theorem displayProfile_fields (user : User) :
    (∀ s : String, user.name = some s → s ≠ "" → (displayProfile user).profileName = s) ∧
    ((user.name = none ∨ user.name = some "") → ∀ s : String, user.login = some s → s ≠ "" →
      (displayProfile user).profileName = s) ∧
    ((user.name = none ∨ user.name = some "") → (user.login = none ∨ user.login = some "") →
      (displayProfile user).profileName = "N/A") ∧
    (∀ s : String, user.bio = some s → s ≠ "" → (displayProfile user).profileBio = s) ∧
    ((user.bio = none ∨ user.bio = some "") →
      (displayProfile user).profileBio = "No bio available") ∧
    (displayProfile user).repoCount = formatNumber (user.public_repos.getD 0) ∧
    (displayProfile user).followerCount = formatNumber (user.followers.getD 0) ∧
    (displayProfile user).followingCount = formatNumber (user.following.getD 0) ∧
    (displayProfile user).gistCount = formatNumber (user.public_gists.getD 0) ∧
    displayProfile emptyUser =
      { profileImage := "", profileName := "N/A", profileBio := "No bio available",
        repoCount := "0", followerCount := "0", followingCount := "0", gistCount := "0" } := by
  have hzero : ∀ x : Option Int, orZero x = x.getD 0 := by
    intro x
    cases x <;> rfl
  refine ⟨?_, ?_, ?_, ?_, ?_, ?_, ?_, ?_, ?_, by decide⟩
  · intro s hs hne
    simp [displayProfile, orStr, hs, hne]
  · intro hname s hs hne
    rcases hname with h | h <;> simp [displayProfile, orStr, h, hs, hne]
  · intro hname hlogin
    rcases hname with h | h <;> rcases hlogin with h' | h' <;>
      simp [displayProfile, orStr, h, h']
  · intro s hs hne
    simp [displayProfile, orStr, hs, hne]
  · intro hbio
    rcases hbio with h | h <;> simp [displayProfile, orStr, h]
  · simp [displayProfile, hzero]
  · simp [displayProfile, hzero]
  · simp [displayProfile, hzero]
  · simp [displayProfile, hzero]

/-- C9, witness: the sample record with every field present is shown with its own name and
bio, and its followers 15300 as "15.3K". -/
theorem displayProfile_fields_witness :
    (displayProfile sampleUser).profileName = "The Octocat" ∧
    (displayProfile sampleUser).profileBio = "Mascot" ∧
    (displayProfile sampleUser).followerCount = "15.3K" :=
  ⟨(displayProfile_fields sampleUser).1 "The Octocat" rfl (by decide),
   (displayProfile_fields sampleUser).2.2.2.1 "Mascot" rfl (by decide),
   by decide⟩

/-! ## Theorems on the effect of `displayTopRepos` on its input -/

theorem sortInsert_of_le {α : Type} (cmp : α → α → Int) (x : α) (l : List α)
    (h : ∀ y ∈ l, cmp x y ≤ 0) : sortInsert cmp x l = x :: l := by
  cases l with
  | nil => rfl
  | cons y ys =>
    unfold sortInsert
    rw [if_pos (h y (List.mem_cons_self _ _))]

theorem arraySort_of_sorted {α : Type} (cmp : α → α → Int) (l : List α)
    (h : l.Pairwise (fun a b => cmp a b ≤ 0)) : arraySort cmp l = l := by
  induction l with
  | nil => rfl
  | cons x xs ih =>
    rw [List.pairwise_cons] at h
    show sortInsert cmp x (arraySort cmp xs) = x :: xs
    rw [ih h.2]
    exact sortInsert_of_le cmp x xs h.1

/-- The effect of `displayTopRepos` on the array it is given: the array holds the same
records afterwards, unchanged, what is rendered is the ranked list, and the order of the
array is kept when it was already by non-increasing star count. -/
theorem displayTopReposInPlace_effect (repos : List Repo) :
    (displayTopReposInPlace repos).1.Perm repos ∧
    (displayTopReposInPlace repos).2 = displayTopRepos repos ∧
    (repos.Pairwise (fun a b => b.stars ≤ a.stars) →
      (displayTopReposInPlace repos).1 = repos) := by
  unfold displayTopReposInPlace displayTopRepos
  split
  · exact ⟨List.Perm.refl _, rfl, fun _ => rfl⟩
  · refine ⟨arraySort_perm _ _, rfl, ?_⟩
    intro h
    apply arraySort_of_sorted
    refine h.imp ?_
    intro a b hab
    unfold byStarsDesc
    omega

/-- C11, the code at the failing input: for the input with star counts 1, missing, 5 the
array passed to `displayTopRepos` holds, after the call, the same three records with the
same field values (the missing star count is still missing), but in the order 5, 1,
missing: the input sequence is not in the same order as before the call. -/
theorem displayTopRepos_reorders_input :
    (displayTopReposInPlace unsortedRepos).1 =
      [repoWithStars "c" (some 5), repoWithStars "a" (some 1), repoWithStars "b" none] ∧
    (displayTopReposInPlace unsortedRepos).1 ≠ unsortedRepos := by
  decide

/-! ## Theorems on the recognized event types -/

/-- The titles of the seven mock events, for every user name and clock. -/
theorem getMockEvents_titles (toISOString : Int → String) (now : Int) (username : String) :
    (getMockEvents toISOString now username).map getEventDescription =
      [Except.ok "Pushed 3 commit(s)", Except.ok "Created branch",
       Except.ok "Starred repository", Except.ok "opened pull request",
       Except.ok "closed issue", Except.ok "Forked repository",
       Except.ok "Published release"] := by
  simp [getMockEvents, getEventDescription, describeEvent, commitCount, payloadStr, truthyStr]
  decide

/-- C12, counterexample: for a CreateEvent whose payload has the ref type `""` and for an
IssuesEvent whose payload has the action `""`, the sub-field is not absent, yet the
defaults are used: the titles are "Created repository" and "Updated issue" instead of
"Created " and " issue". -/
theorem getEventDescription_emptyField_counterexample :
    (payloadOf (some "") none).ref_type = some "" ∧
    getEventDescription (eventWithPayload "CreateEvent" (some (payloadOf (some "") none))) =
      Except.ok "Created repository" ∧
    "Created " ++ "" ≠ "Created repository" ∧
    (payloadOf none (some "")).action = some "" ∧
    getEventDescription (eventWithPayload "IssuesEvent" (some (payloadOf none (some "")))) =
      Except.ok "Updated issue" ∧
    "" ++ " issue" ≠ "Updated issue" :=
  ⟨rfl, rfl, by decide, rfl, rfl, by decide⟩

/-- C12, amended: for every event of a recognized type with a payload sub-field, the title
uses the sub-field when it is present and non-empty and its default otherwise: a PushEvent
yields "Pushed N commit(s)" where N is the number of commits in the payload, or 1 when the
payload or its commits list is absent; a CreateEvent yields "Created T" where T is the
payload's ref type if present and non-empty, and "repository" otherwise; an IssuesEvent
yields "A issue" and a PullRequestEvent "A pull request" where A is the payload's action
if present and non-empty, and "Updated" otherwise. -/
theorem getEventDescription_recognized (event : Event) :
    (event.type = EventType.string "PushEvent" →
      (∀ (p : Payload) (cs : List Commit), event.payload = some p → p.commits = some cs →
        getEventDescription event =
          Except.ok ("Pushed " ++ toString cs.length ++ " commit(s)")) ∧
      ((event.payload = none ∨ ∃ p, event.payload = some p ∧ p.commits = none) →
        getEventDescription event = Except.ok "Pushed 1 commit(s)")) ∧
    (event.type = EventType.string "CreateEvent" →
      (∀ (p : Payload) (T : String), event.payload = some p → p.ref_type = some T → T ≠ "" →
        getEventDescription event = Except.ok ("Created " ++ T)) ∧
      ((event.payload = none ∨
          ∃ p, event.payload = some p ∧ (p.ref_type = none ∨ p.ref_type = some "")) →
        getEventDescription event = Except.ok "Created repository")) ∧
    (event.type = EventType.string "IssuesEvent" →
      (∀ (p : Payload) (A : String), event.payload = some p → p.action = some A → A ≠ "" →
        getEventDescription event = Except.ok (A ++ " issue")) ∧
      ((event.payload = none ∨
          ∃ p, event.payload = some p ∧ (p.action = none ∨ p.action = some "")) →
        getEventDescription event = Except.ok "Updated issue")) ∧
    (event.type = EventType.string "PullRequestEvent" →
      (∀ (p : Payload) (A : String), event.payload = some p → p.action = some A → A ≠ "" →
        getEventDescription event = Except.ok (A ++ " pull request")) ∧
      ((event.payload = none ∨
          ∃ p, event.payload = some p ∧ (p.action = none ∨ p.action = some "")) →
        getEventDescription event = Except.ok "Updated pull request")) := by
  refine ⟨?_, ?_, ?_, ?_⟩
  · intro ht
    constructor
    · intro p cs hp hcs
      simp [getEventDescription, describeEvent, ht, commitCount, hp, hcs]
    · rintro (hp | ⟨p, hp, hcs⟩)
      · simp [getEventDescription, describeEvent, ht, commitCount, hp]
        rfl
      · simp [getEventDescription, describeEvent, ht, commitCount, hp, hcs]
        rfl
  · intro ht
    constructor
    · intro p T hp hT hne
      simp [getEventDescription, describeEvent, ht, payloadStr, truthyStr, hp, hT, hne]
    · rintro (hp | ⟨p, hp, hT | hT⟩)
      · simp [getEventDescription, describeEvent, ht, payloadStr, hp]
      · simp [getEventDescription, describeEvent, ht, payloadStr, truthyStr, hp, hT]
      · simp [getEventDescription, describeEvent, ht, payloadStr, truthyStr, hp, hT]
  · intro ht
    constructor
    · intro p A hp hA hne
      simp [getEventDescription, describeEvent, ht, payloadStr, truthyStr, hp, hA, hne]
    · rintro (hp | ⟨p, hp, hA | hA⟩)
      · simp [getEventDescription, describeEvent, ht, payloadStr, hp]
      · simp [getEventDescription, describeEvent, ht, payloadStr, truthyStr, hp, hA]
      · simp [getEventDescription, describeEvent, ht, payloadStr, truthyStr, hp, hA]
  · intro ht
    constructor
    · intro p A hp hA hne
      simp [getEventDescription, describeEvent, ht, payloadStr, truthyStr, hp, hA, hne]
    · rintro (hp | ⟨p, hp, hA | hA⟩)
      · simp [getEventDescription, describeEvent, ht, payloadStr, hp]
      · simp [getEventDescription, describeEvent, ht, payloadStr, truthyStr, hp, hA]
      · simp [getEventDescription, describeEvent, ht, payloadStr, truthyStr, hp, hA]

/-- C12, witness: the push, create, pull-request and issues events of the mock data and
an IssuesEvent without payload get the titles "Pushed 3 commit(s)", "Created branch",
"opened pull request", "closed issue" and "Updated issue". -/
theorem getEventDescription_recognized_witness :
    getEventDescription (eventWithPayload "PushEvent" (some threeCommits)) =
      Except.ok ("Pushed " ++ toString 3 ++ " commit(s)") ∧
    getEventDescription
        (eventWithPayload "CreateEvent" (some (payloadOf (some "branch") none))) =
      Except.ok ("Created " ++ "branch") ∧
    getEventDescription
        (eventWithPayload "PullRequestEvent" (some (payloadOf none (some "opened")))) =
      Except.ok ("opened" ++ " pull request") ∧
    getEventDescription
        (eventWithPayload "IssuesEvent" (some (payloadOf none (some "closed")))) =
      Except.ok ("closed" ++ " issue") ∧
    getEventDescription (eventWithPayload "IssuesEvent" none) = Except.ok "Updated issue" :=
  ⟨((getEventDescription_recognized
      (eventWithPayload "PushEvent" (some threeCommits))).1 rfl).1 threeCommits _ rfl rfl,
   ((getEventDescription_recognized
      (eventWithPayload "CreateEvent" (some (payloadOf (some "branch") none)))).2.1 rfl).1
      (payloadOf (some "branch") none) "branch" rfl rfl (by decide),
   ((getEventDescription_recognized
      (eventWithPayload "PullRequestEvent" (some (payloadOf none (some "opened"))))).2.2.2
      rfl).1 (payloadOf none (some "opened")) "opened" rfl rfl (by decide),
   ((getEventDescription_recognized
      (eventWithPayload "IssuesEvent" (some (payloadOf none (some "closed"))))).2.2.1 rfl).1
      (payloadOf none (some "closed")) "closed" rfl rfl (by decide),
   ((getEventDescription_recognized (eventWithPayload "IssuesEvent" none)).2.2.1 rfl).2
      (Or.inl rfl)⟩

end GitHubProfile
